import Mathlib

/-!
Verification development for the `ep_docx_html_customizer` Etherpad plugin.

The definitions below are a shallow embedding of the plugin's JavaScript
sources (`src/transform_common.js`, `src/index.js`, the clipboard hooks and
the client hook file).  Pure string and list manipulations are translated
into executable Lean functions; DOM trees are modelled by an explicit
inductive node type; the impure inputs of the code (the `Math.random`
stream, filesystem image resolution, floating-point ratio formatting) are
passed in as explicit environment parameters so that every transformation
becomes a deterministic function of its inputs.
-/

namespace DocxCustomizer

/- ──────────────────────────  JS string primitives  ────────────────────────── -/

/-- `String.prototype.slice(from, to)` for non-negative indices, as used by
`Math.random().toString(36).slice(2, 8)` in `transform_common.js`. -/
def jsSlice (s : String) (from_ to_ : Nat) : String :=
  ⟨(s.data.take to_).drop from_⟩

/-- Character-wise substitution; models `str.replace(/x/g, 'y')` for a
single-character pattern (as in the base64 URL-safe substitutions). -/
def mapStr (f : Char → Char) (s : String) : String :=
  ⟨s.data.map f⟩

/-- JS `\\s` whitespace for `trim()` and `split(/\\s+/)`. -/
def isWsChar (c : Char) : Bool := c = ' ' ∨ c = '\t' ∨ c = '\n' ∨ c = '\r'

/-- `String.prototype.trim()`. -/
def jsTrim (s : String) : String :=
  ⟨((s.data.dropWhile isWsChar).reverse.dropWhile isWsChar).reverse⟩

def jsLowerChar (c : Char) : Char :=
  if 'A' ≤ c ∧ c ≤ 'Z' then Char.ofNat (c.toNat + 32) else c

/-- `String.prototype.toLowerCase()` (ASCII range, which is all the code
compares). -/
def jsToLower (s : String) : String := ⟨s.data.map jsLowerChar⟩

/-- `String.prototype.startsWith`. -/
def jsStartsWith (s pre : String) : Bool := pre.data.isPrefixOf s.data

/-- Drop an expected prefix, `none` when absent. -/
def dropPrefixQ (pre l : List Char) : Option (List Char) :=
  if pre.isPrefixOf l then some (l.drop pre.length) else none

/-- One digit of JS `parseInt(_, 10)`. -/
def isDecDigit (c : Char) : Bool := '0' ≤ c ∧ c ≤ '9'

/-- Numeric value of a decimal digit character. -/
def digitVal (c : Char) : Nat := c.toNat - 48

/-- Decimal value of a digit list (most significant first). -/
def decToNat (l : List Char) : Nat :=
  l.foldl (fun a c => a * 10 + digitVal c) 0

/-- JS `parseInt(s, 10)`: skip leading whitespace, optional sign, then read a
maximal run of decimal digits; `none` models `NaN` (no digits found).
Fractional parts and trailing garbage are ignored, exactly as in JS. -/
def jsParseInt (s : String) : Option Int :=
  let l := s.data.dropWhile (fun c => c = ' ' ∨ c = '\t' ∨ c = '\n' ∨ c = '\r')
  let (neg, l) :=
    match l with
    | '-' :: r => (true, r)
    | '+' :: r => (false, r)
    | _ => (false, l)
  let digits := l.takeWhile isDecDigit
  if digits.isEmpty then none
  else some (if neg then -(decToNat digits : Int) else (decToNat digits : Int))

/-- Decimal digit character for `d < 10`. -/
def decDigitChar (d : Nat) : Char := Char.ofNat (48 + d)

/-- Digit characters of `n`, most significant first.  The fuel argument is an
upper bound on the number of digits (`n` itself always suffices); it makes
the recursion structural so concrete values reduce definitionally. -/
def natToDecAux : Nat → Nat → List Char
  | 0, _ => []
  | fuel + 1, n =>
    if n < 10 then [decDigitChar n]
    else natToDecAux fuel (n / 10) ++ [decDigitChar (n % 10)]

/-- JS number-to-string for a non-negative integer (`` `${tableIdx}` `` in the
table metadata, `` `${counter}. ` `` in the list flattener). -/
def jsNatToString (n : Nat) : String := ⟨natToDecAux (n + 1) n⟩

/-- JS number-to-string for an integer value. -/
def jsIntToString : Int → String
  | Int.ofNat n => jsNatToString n
  | Int.negSucc n => "-" ++ jsNatToString (n + 1)

/- ─────────────────────  base64 and the URL-safe encoders  ───────────────────── -/

/-- The standard base64 alphabet used by `btoa` / `Buffer.toString('base64')`. -/
def b64Alphabet : List Char :=
  "ABCDEFGHIJKLMNOPQRSTUVWXYZabcdefghijklmnopqrstuvwxyz0123456789+/".data

/-- Symbol for a 6-bit group. -/
def b64Char (k : Nat) : Char := b64Alphabet.getD k 'A'

/-- Index of a character in the base64 alphabet (`none` for a foreign
character, which makes `atob` throw). -/
def b64Index (c : Char) : Option Nat :=
  let i := b64Alphabet.findIdx (· = c)
  if i < b64Alphabet.length then some i else none

/-- base64 encoding of a byte list (the core of `btoa`), including the `=`
padding for a trailing group of one or two bytes. -/
def b64EncodeBytes : List Nat → List Char
  | [] => []
  | [b1] => [b64Char (b1 / 4), b64Char (b1 % 4 * 16), '=', '=']
  | [b1, b2] => [b64Char (b1 / 4), b64Char (b1 % 4 * 16 + b2 / 16),
                 b64Char (b2 % 16 * 4), '=']
  | b1 :: b2 :: b3 :: rest =>
    b64Char (b1 / 4) :: b64Char (b1 % 4 * 16 + b2 / 16) ::
    b64Char (b2 % 16 * 4 + b3 / 64) :: b64Char (b3 % 64) :: b64EncodeBytes rest

/-- base64 decoding (the core of `atob`); returns `none` on malformed input,
modelling the exception `atob` raises. -/
def b64DecodeBytes : List Char → Option (List Nat)
  | [] => some []
  | c1 :: c2 :: c3 :: c4 :: rest =>
    match b64Index c1, b64Index c2 with
    | some x1, some x2 =>
      if c3 = '=' then
        if c4 = '=' ∧ rest = [] then some [x1 * 4 + x2 / 16] else none
      else
        match b64Index c3 with
        | some x3 =>
          if c4 = '=' then
            if rest = [] then some [x1 * 4 + x2 / 16, x2 % 16 * 16 + x3 / 4]
            else none
          else
            match b64Index c4, b64DecodeBytes rest with
            | some x4, some tail =>
              some ((x1 * 4 + x2 / 16) :: (x2 % 16 * 16 + x3 / 4) ::
                    (x3 % 4 * 64 + x4) :: tail)
            | _, _ => none
        | none => none
    | _, _ => none
  | _ => none

/-- `btoa(s)`: base64 over the string's character codes (meaningful for
latin-1 strings, on which `btoa` is defined and agrees with the
`Buffer.from(s).toString('base64')` branch for ASCII input). -/
def jsBtoa (s : String) : String := ⟨b64EncodeBytes (s.data.map Char.toNat)⟩

/-- `atob(s)` returning `none` where `atob` would throw. -/
def jsAtob (s : String) : Option String :=
  (b64DecodeBytes s.data).map (fun bs => ⟨bs.map Char.ofNat⟩)

/-- `enc` from `transform_common.js` (also `index.js`): base64 followed by the
URL-safe substitutions `+ → -` and `/ → _`. -/
def encCommon (s : String) : String :=
  mapStr (fun c => if c = '/' then '_' else c)
    (mapStr (fun c => if c = '+' then '-' else c) (jsBtoa s))

/-- `enc` from the clipboard hook file: the second substitution is written
`.replace(/_/g, '_')` in the source, a no-op, so only `+ → -` happens and any
`/` in the base64 output is left in place. -/
def encClip (s : String) : String :=
  mapStr (fun c => if c = '_' then '_' else c)
    (mapStr (fun c => if c = '+' then '-' else c) (jsBtoa s))

/-- `dec` from the clipboard hook file: reverse both substitutions
(`- → +`, `_ → /`) and base64-decode; `none` models the caught exception
(the function returns `null`). -/
def dec (s : String) : Option String :=
  jsAtob (mapStr (fun c => if c = '_' then '/' else c)
    (mapStr (fun c => if c = '-' then '+' else c) s))

/- ───────────────────────────  DOM node model  ─────────────────────────── -/

/-- Element data: lower-case tag name, the `className` string, other
attributes (as read by `getAttribute`), and the inline style declarations
(as read through `el.style`).  The serialized `style` attribute that CSS
attribute selectors test against is derived from the declaration list by
`styleSerialize`, keeping the two views consistent as a browser does. -/
structure ElemData where
  tag : String
  className : String
  attrs : List (String × String)
  style : List (String × String)
deriving DecidableEq, Repr

/-- A DOM node: a text node or an element with children. -/
inductive Node where
  | text (s : String)
  | elem (d : ElemData) (children : List Node)
deriving Repr

/-- `getAttribute` (`none` models `null`). -/
def getAttr (d : ElemData) (name : String) : Option String :=
  d.attrs.lookup name

/-- One inline style property (`''` when unset, as in the DOM API). -/
def styleGet (d : ElemData) (prop : String) : String :=
  (d.style.lookup prop).getD ""

/-- The serialized `style` attribute text. -/
def styleSerialize (props : List (String × String)) : String :=
  String.intercalate "; " (props.map (fun kv => kv.1 ++ ": " ++ kv.2))

/-- Substring test (used for CSS `[style*="…"]` attribute selectors). -/
def listContainsSub (pat : List Char) : List Char → Bool
  | [] => pat.isEmpty
  | c :: rest => pat.isPrefixOf (c :: rest) || listContainsSub pat rest

def strContains (s pat : String) : Bool := listContainsSub pat.data s.data

def splitWsAux : List Char → List Char → List String
  | [], acc => if acc.isEmpty then [] else [⟨acc.reverse⟩]
  | c :: rest, acc =>
    if isWsChar c then
      if acc.isEmpty then splitWsAux rest []
      else (⟨acc.reverse⟩ : String) :: splitWsAux rest []
    else splitWsAux rest (c :: acc)

/-- `className.split(/\s+/).filter(Boolean)`. -/
def classTokens (s : String) : List String := splitWsAux s.data []

def isHeadingTag (t : String) : Bool :=
  t = "h1" ∨ t = "h2" ∨ t = "h3" ∨ t = "h4" ∨ t = "h5" ∨ t = "h6"

/-- The `<br>` element created by `document.createElement('br')`. -/
def brData : ElemData := ⟨"br", "", [], []⟩

def brNode : Node := .elem brData []

/-- Attribute part of an element's serialization. -/
def renderAttrsStr (d : ElemData) : String :=
  (if d.className = "" then "" else " class=\"" ++ d.className ++ "\"") ++
  (d.attrs.foldl (fun acc kv => acc ++ " " ++ kv.1 ++ "=\"" ++ kv.2 ++ "\"") "") ++
  (if d.style.isEmpty then "" else " style=\"" ++ styleSerialize d.style ++ "\"")

mutual
/-- `outerHTML` of a node (text nodes carry their serialized text verbatim;
the model does not re-escape markup, matching how already-serialized
fragments are round-tripped through `innerHTML` by the source). -/
def renderNode : Node → String
  | .text s => s
  | .elem d cs =>
    "<" ++ d.tag ++ renderAttrsStr d ++ ">" ++ renderList cs ++ "</" ++ d.tag ++ ">"
/-- `innerHTML` of a node list. -/
def renderList : List Node → String
  | [] => ""
  | n :: rest => renderNode n ++ renderList rest
end

mutual
/-- `textContent` of a node. -/
def textContentNode : Node → String
  | .text s => s
  | .elem _ cs => textContentList cs
def textContentList : List Node → String
  | [] => ""
  | n :: rest => textContentNode n ++ textContentList rest
end

/- ───────────────  the table flattener (`customizeDocument`, tables)  ─────────────── -/

/-- The ep_tables5 field delimiter `\u241F`. -/
def DELIMITER : Char := Char.ofNat 0x241F

/-- The zero-width space used to flank inline placeholders. -/
def ZWSP : Char := Char.ofNat 0x200B

/-- The non-breaking space. -/
def NBSP : Char := Char.ofNat 0x00A0

/-- A table cell as the flattener reads it: the `colspan` / `rowspan`
attributes and the cell's child nodes. -/
structure Cell where
  colspanAttr : Option String
  rowspanAttr : Option String
  content : List Node

/-- `parseInt(cell.getAttribute('colspan') || '1', 10)` with the
`isNaN(span) || span < 1` clamp to 1 applied. -/
def spanOf (attr : Option String) : Nat :=
  let s := match attr with
    | none => "1"
    | some a => if a = "" then "1" else a
  match jsParseInt s with
  | none => 1
  | some v => if v < 1 then 1 else v.toNat

/-- Logical column count of one row: sum of the cells' colspans. -/
def getLogicalCols (row : List Cell) : Nat :=
  row.foldl (fun cnt c => cnt + spanOf c.colspanAttr) 0

/-- Logical column count of the table: maximum over all rows. -/
def numColsOf (rows : List (List Cell)) : Nat :=
  rows.foldl (fun mx r => let c := getLogicalCols r; if c > mx then c else mx) 0

/-- The blank placeholder cell emitted by `customizeDocument`. -/
def blankCellHTML : String := "<span>&nbsp;</span>"

/-- `/\r?\n/g → ' '` on raw text. -/
def newlinesToSpaces : List Char → List Char
  | [] => []
  | '\r' :: '\n' :: rest => ' ' :: newlinesToSpaces rest
  | '\n' :: rest => ' ' :: newlinesToSpaces rest
  | c :: rest => c :: newlinesToSpaces rest

mutual
/-- Newline collapsing applied to every text node of a fragment. -/
def stripNlNode : Node → Node
  | .text s => .text ⟨newlinesToSpaces s.data⟩
  | .elem d cs => .elem d (stripNlList cs)
def stripNlList : List Node → List Node
  | [] => []
  | n :: rest => stripNlNode n :: stripNlList rest
end

/-- The span a heading inside a table cell is replaced with: the heading's
classes with `bold` appended (if missing) and the heading's content. -/
def mkBoldSpan (d : ElemData) (cs : List Node) : Node :=
  let cls := classTokens d.className
  let cls := if cls.contains "bold" then cls else cls ++ ["bold"]
  .elem ⟨"span", String.intercalate " " cls, [], []⟩ cs

mutual
/-- Replace the first heading element (preorder, as found by
`tmp.querySelector('h1, …, h6')`) with its bold span. -/
def boldenFirstNode : Node → (Node × Bool)
  | .text s => (.text s, false)
  | .elem d cs =>
    if isHeadingTag d.tag then (mkBoldSpan d cs, true)
    else
      let (cs', found) := boldenFirstList cs
      (.elem d cs', found)
def boldenFirstList : List Node → (List Node × Bool)
  | [] => ([], false)
  | n :: rest =>
    let (n', found) := boldenFirstNode n
    if found then (n' :: rest, true)
    else
      let (rest', f2) := boldenFirstList rest
      (n :: rest', f2)
end

/-- The flattening pass over the cell's top-level nodes (`flatten` in the
source): texts are trimmed and kept when non-empty, `<p>` wrappers are
unwrapped when their content is non-empty, other elements are kept whole.
Parts are later joined with single spaces. -/
def flattenParts : List Node → List (List Node)
  | [] => []
  | .text s :: rest =>
    let t := jsTrim s
    if t = "" then flattenParts rest else [Node.text t] :: flattenParts rest
  | .elem d cs :: rest =>
    if d.tag = "p" then
      if jsTrim (renderList cs) = "" then flattenParts rest else cs :: flattenParts rest
    else [Node.elem d cs] :: flattenParts rest

def isBr : Node → Bool
  | .elem d _ => d.tag = "br"
  | _ => false

def isWsText : Node → Bool
  | .text s => jsTrim s = ""
  | _ => false

/-- Strip the trailing run matching `(<br\s*\/?>\s*)+$`: the maximal
suffix of `<br>`s and whitespace that starts with a `<br>`. -/
def dropTrailingBrs (l : List Node) : List Node :=
  let rev := l.reverse
  let run := rev.takeWhile (fun n => isBr n || isWsText n)
  let rest := rev.drop run.length
  if run.any isBr then
    rest.reverse ++ (run.reverse.takeWhile (fun n => ¬ isBr n))
  else l

mutual
/-- `html.replace(/<br\s*\/?>/gi, ' ')`: every remaining `<br>` anywhere in
the fragment becomes a single space. -/
def brsToSpacesNode : Node → Node
  | .text s => .text s
  | .elem d cs => if d.tag = "br" then .text " " else .elem d (brsToSpacesList cs)
def brsToSpacesList : List Node → List Node
  | [] => []
  | n :: rest => brsToSpacesNode n :: brsToSpacesList rest
end

/-- `/^<br\/?>(\s*)?$/` on the joined content: a sole bare `<br>`. -/
def isSingleBr : List Node → Bool
  | [.elem d cs] => d = brData ∧ cs.isEmpty
  | _ => false

def removeNbsp (s : String) : String :=
  ⟨s.data.filter (fun c => c ≠ NBSP)⟩

/-- Cell-content normalization of the table flattener
(`transform_common.js` lines 472–511): newline collapsing, in-cell heading
boldening, paragraph flattening, `<br>` cleanup, and the visible-emptiness
probe that substitutes the non-breaking-space placeholder.  String-level
`.trim()` of serialized fragments is applied to the final rendering; the
intermediate `innerHTML` round-trips of the source are represented by
keeping the node list itself. -/
def normalizeCellContent (content : List Node) : String :=
  let nodes := stripNlList content
  let nodes := (boldenFirstList nodes).1
  let parts := flattenParts nodes
  let joined := List.intercalate [Node.text " "] parts
  let joined := if isSingleBr joined then [] else joined
  let joined := if joined.isEmpty then joined else brsToSpacesList (dropTrailingBrs joined)
  let html := jsTrim (renderList joined)
  let visiblyEmpty := jsTrim (removeNbsp (textContentList joined)) = ""
  if visiblyEmpty then blankCellHTML else html

/-- The `for extra = 1; extra < colspan && col + extra < numCols` loop: blank
placeholders for the columns covered by a colspan, propagating the rowspan
carry.  Arguments: `extra` cursor, `remaining` iterations (`colspan - extra`),
current carry-state. -/
def colspanFill (numCols col rowspan : Nat) :
    Nat → Nat → List Nat → (List String × List Nat)
  | _, 0, pending => ([], pending)
  | extra, remaining + 1, pending =>
    if col + extra < numCols then
      let pending' := if rowspan > 1 then pending.set (col + extra) (rowspan - 1) else pending
      let res := colspanFill numCols col rowspan (extra + 1) remaining pending'
      (blankCellHTML :: res.1, res.2)
    else ([], pending)

/-- The per-row column walk (`for (let col = 0; col < numCols; col++)`): cell
texts accumulated left to right, the rowspan carry-state, and the source-cell
cursor `rawPtr`.  `fuel` bounds the remaining iterations; the walk stops at
`col ≥ numCols` exactly as the source loop, and any `fuel ≥ numCols - col`
makes the bound inert. -/
def rowLoop (numCols : Nat) (cells : List Cell) :
    Nat → Nat → Nat → List Nat → List String → (List String × List Nat × Nat)
  | 0, _, rawPtr, pending, acc => (acc, pending, rawPtr)
  | fuel + 1, col, rawPtr, pending, acc =>
    if col < numCols then
      if pending.getD col 0 > 0 then
        rowLoop numCols cells fuel (col + 1) rawPtr
          (pending.set col (pending.getD col 0 - 1)) (acc ++ [blankCellHTML])
      else
        match cells[rawPtr]? with
        | none =>
          rowLoop numCols cells fuel (col + 1) (rawPtr + 1) pending (acc ++ [blankCellHTML])
        | some cell =>
          let colspan := spanOf cell.colspanAttr
          let rowspan := spanOf cell.rowspanAttr
          let html := normalizeCellContent cell.content
          let pending1 := if rowspan > 1 then pending.set col (rowspan - 1) else pending
          let fill := colspanFill numCols col rowspan 1 (colspan - 1) pending1
          rowLoop numCols cells fuel (col + colspan) (rawPtr + 1) fill.2
            (acc ++ [html] ++ fill.1)
    else (acc, pending, rawPtr)

/-- One row of the flattener: walk all logical columns starting from the
current carry-state. -/
def processTableRow (numCols : Nat) (pending : List Nat) (row : List Cell) :
    (List String × List Nat × Nat) :=
  rowLoop numCols row numCols 0 0 pending []

/-- All rows, threading the carry-state. -/
def flattenRows (numCols : Nat) (pending : List Nat) :
    List (List Cell) → (List (List String) × List Nat)
  | [] => ([], pending)
  | row :: rest =>
    let rowRes := processTableRow numCols pending row
    let restRes := flattenRows numCols rowRes.2.1 rest
    (rowRes.1 :: restRes.1, restRes.2)

/-- The table flattener on an extracted row/cell grid, also exposing the
final carry-state.  `none` models the `return`s that leave a table with no
rows or zero computed columns untouched (and unprocessed). -/
def flattenTableFull (rows : List (List Cell)) :
    Option (List (List String) × List Nat) :=
  if rows.isEmpty then none
  else
    let n := numColsOf rows
    if n = 0 then none
    else some (flattenRows n (List.replicate n 0) rows)

/-- The emitted lines of a flattened table. -/
def flattenTable (rows : List (List Cell)) : Option (List (List String)) :=
  (flattenTableFull rows).map (·.1)

/-- `cellHTMLs.join(DELIMITER)`: the text of one emitted table line. -/
def serializeRowLine : List String → String
  | [] => ""
  | [c] => c
  | c :: rest => c ++ String.mk [DELIMITER] ++ serializeRowLine rest

/-- Splitting a character list at every delimiter occurrence
(`lineText.split(DELIMITER)`). -/
def splitOnDelim : List Char → List (List Char)
  | [] => [[]]
  | c :: rest =>
    let r := splitOnDelim rest
    if c = DELIMITER then [] :: r
    else
      match r with
      | f :: rs => (c :: f) :: rs
      | [] => [[c]]

/-- Number of fields a line text splits into. -/
def fieldCount (s : String) : Nat := (splitOnDelim s.data).length


/- ───────────────────  environment for the impure inputs  ─────────────────── -/

/-- The impure inputs of `customizeDocument`, passed explicitly:
`randSupply k` is the raw string of the `k`-th `Math.random().toString(36)`
call; `resolveImage` is the filesystem inlining of a relative image source
(`none` when the file is missing or unreadable); `ratioFor w h` is the
floating-point `(parseFloat(w) / parseFloat(h)).toFixed(4)` computation;
`server` tells whether the Node-only branch (`typeof window === 'undefined'
&& fs`) is taken. -/
structure JsEnv where
  randSupply : Nat → String
  resolveImage : String → Option String
  ratioFor : String → String → String
  server : Bool

/-- `rand()` from `transform_common.js`:
`Math.random().toString(36).slice(2, 8)`. -/
def jsRand (env : JsEnv) (k : Nat) : String := jsSlice (env.randSupply k) 2 8

/-- The image identifier minted for one image: `rand() + rand()`. -/
def imageIdAt (env : JsEnv) (k : Nat) : String := jsRand env k ++ jsRand env (k + 1)

/- ─────────────────────────  encodeURIComponent  ───────────────────────── -/

def hexDigitChar (d : Nat) : Char :=
  if d < 10 then Char.ofNat (48 + d) else Char.ofNat (55 + d)

/-- UTF-8 bytes of one character. -/
def utf8Bytes (c : Char) : List Nat :=
  let n := c.toNat
  if n < 0x80 then [n]
  else if n < 0x800 then [0xC0 + n / 64, 0x80 + n % 64]
  else if n < 0x10000 then [0xE0 + n / 4096, 0x80 + n / 64 % 64, 0x80 + n % 64]
  else [0xF0 + n / 262144, 0x80 + n / 4096 % 64, 0x80 + n / 64 % 64, 0x80 + n % 64]

/-- Characters `encodeURIComponent` leaves unescaped. -/
def uriUnreserved (c : Char) : Bool :=
  ('A' ≤ c ∧ c ≤ 'Z') ∨ ('a' ≤ c ∧ c ≤ 'z') ∨ ('0' ≤ c ∧ c ≤ '9') ∨
  c = '-' ∨ c = '_' ∨ c = '.' ∨ c = '!' ∨ c = '~' ∨ c = '*' ∨ c = '\'' ∨
  c = '(' ∨ c = ')'

def encodeURIComponent (s : String) : String :=
  ⟨s.data.foldr
    (fun c acc =>
      if uriUnreserved c then c :: acc
      else (utf8Bytes c).foldr
        (fun b acc2 => '%' :: hexDigitChar (b / 16) :: hexDigitChar (b % 16) :: acc2)
        acc)
    []⟩

/-- The zero-width-space string used to flank placeholders. -/
def ZWSPstr : String := String.mk [ZWSP]

/- ─────────────────────────  heading normalizer  ───────────────────────── -/

mutual
/-- Heading stage (`transform_common.js` lines 136–145): a `<br>` is inserted
immediately before and after every heading element. -/
def headingsNode : Node → Node
  | .text s => .text s
  | .elem d cs => .elem d (headingsList cs)
def headingsList : List Node → List Node
  | [] => []
  | .text s :: rest => .text s :: headingsList rest
  | .elem d cs :: rest =>
    if isHeadingTag d.tag then
      brNode :: .elem d (headingsList cs) :: brNode :: headingsList rest
    else .elem d (headingsList cs) :: headingsList rest
end

mutual
def hasHeadingNode : Node → Bool
  | .text _ => false
  | .elem d cs => isHeadingTag d.tag || hasHeadingList cs
def hasHeadingList : List Node → Bool
  | [] => false
  | n :: rest => hasHeadingNode n || hasHeadingList rest
end

/-- The heading stage on the document: tree rewrite plus the modified flag
(set once per heading found). -/
def headingsStage (doc : List Node) : List Node × Bool :=
  (headingsList doc, hasHeadingList doc)

/- ─────────────────────────  alignment wrapper  ───────────────────────── -/

/-- The alignment keyword captured by
`/text-align\s*:\s*(left|right|center|justify)/i` from the serialized style
attribute: with canonical declarations this is the `text-align` declaration
whose value (after leading whitespace) begins with one of the keywords, tried
in the regex's alternation order. -/
def styleAlignKw (d : ElemData) : String :=
  match d.style.lookup "text-align" with
  | none => ""
  | some v =>
    let t : String := ⟨(jsToLower v).data.dropWhile isWsChar⟩
    if jsStartsWith t "left" then "left"
    else if jsStartsWith t "right" then "right"
    else if jsStartsWith t "center" then "center"
    else if jsStartsWith t "justify" then "justify"
    else ""

/-- `alignVal`: the `align` attribute (lower-cased) if non-empty, otherwise
the style-derived keyword. -/
def alignValOf (d : ElemData) : String :=
  let a := jsToLower ((getAttr d "align").getD "")
  if a ≠ "" then a else styleAlignKw d

/-- `ALIGN_MAP[alignVal] && alignVal !== 'left'`. -/
def recognizedNonLeft (v : String) : Bool :=
  v = "center" ∨ v = "right" ∨ v = "justify"

def wrapTags : List String := ["center", "left", "right", "justify"]

/-- The fresh wrapper element `document.createElement(ALIGN_MAP[alignVal])`. -/
def wrapperOf (v : String) : ElemData := ⟨v, "", [], []⟩

/-- `blk.removeAttribute('align'); blk.style.removeProperty('text-align')`. -/
def removeAlignData (d : ElemData) : ElemData :=
  { d with attrs := d.attrs.filter (fun kv => kv.1 ≠ "align"),
           style := d.style.filter (fun kv => kv.1 ≠ "text-align") }

mutual
/-- Alignment stage (`transform_common.js` lines 147–178).  `it` records
whether an ancestor (or the element itself) is a table (`blk.closest`): such
blocks are skipped.  Wrapper-tag elements are skipped.  A wrapped heading
keeps its (recursively processed) element with the alignment declarations
stripped; a wrapped non-heading block is replaced by a wrapper holding a
clone of its content, which the stage does not process further (the
originally collected descendants are detached by the replacement).  A `<br>`
follows every wrapper. -/
def alignNode (it : Bool) : Node → (List Node × Bool)
  | .text s => ([.text s], false)
  | .elem d cs =>
    let itSelf := it || d.tag = "table"
    if d.tag ∈ wrapTags then
      let res := alignList itSelf cs
      ([.elem d res.1], res.2)
    else if itSelf then
      let res := alignList itSelf cs
      ([.elem d res.1], res.2)
    else if recognizedNonLeft (alignValOf d) then
      if isHeadingTag d.tag then
        let res := alignList itSelf cs
        ([.elem (wrapperOf (alignValOf d)) [.elem (removeAlignData d) res.1], brNode], true)
      else
        ([.elem (wrapperOf (alignValOf d)) cs, brNode], true)
    else
      let res := alignList itSelf cs
      ([.elem d res.1], res.2)
def alignList (it : Bool) : List Node → (List Node × Bool)
  | [] => ([], false)
  | n :: rest =>
    let res := alignNode it n
    let res2 := alignList it rest
    (res.1 ++ res2.1, res.2 || res2.2)
end

/-- The alignment stage on the whole document. -/
def alignStageDoc (doc : List Node) : List Node × Bool := alignList false doc

/- ───────────────────────  ordered-list flattener  ─────────────────────── -/

/-- `${depth * 1.5}em` (exact: `1.5 * depth` is representable and prints as a
terminating decimal). -/
def jsDepthEm (depth : Nat) : String :=
  (if depth % 2 = 0 then jsNatToString (depth * 3 / 2)
   else jsNatToString (depth * 3 / 2) ++ ".5") ++ "em"

/-- The `start` handling: `parseInt(ol.getAttribute('start') || '1', 10)`,
`NaN → 1`.  No lower clamp: negative and zero starts survive. -/
def olStartCounter (startAttr : Option String) : Int :=
  let s := match startAttr with
    | none => "1"
    | some a => if a = "" then "1" else a
  (jsParseInt s).getD 1

mutual
/-- Replacement of every outermost nested `<ol>` inside a cloned `<li>`
(`liClone.querySelectorAll('ol')` + `replaceChild`; deeper `<ol>`s are
handled by the recursion itself, and the replaced originals are detached, so
outermost-first replacement is the observable behaviour). -/
def replaceNestedOls (depth : Nat) : List Node → List Node
  | [] => []
  | .text s :: rest => .text s :: replaceNestedOls depth rest
  | .elem d cs :: rest =>
    if d.tag = "ol" then
      processOrderedList (getAttr d "start") cs depth ++ replaceNestedOls depth rest
    else .elem d (replaceNestedOls depth cs) :: replaceNestedOls depth rest

/-- `processOrderedList` (`transform_common.js` lines 181–210): number the
direct `<li>` children, flattening nested ordered lists first; a single
wrapping `<p>` child is unwrapped; non-`<li>` children are dropped. -/
def processOrderedList (startAttr : Option String) (children : List Node)
    (depth : Nat) : List Node :=
  processLis (olStartCounter startAttr) children depth

def processLis (counter : Int) (cs : List Node) (depth : Nat) : List Node :=
  match cs with
  | [] => []
  | .text _ :: rest => processLis counter rest depth
  | .elem d lics :: rest =>
    if d.tag = "li" then
      let inner := replaceNestedOls (depth + 1) lics
      let unwrapped :=
        match inner with
        | [.elem pd pcs] => if pd.tag = "p" then pcs else inner
        | _ => inner
      let prefixSpan : Node :=
        .elem ⟨"span", "", [], []⟩ [.text (jsIntToString counter ++ ". ")]
      let divStyle := if depth > 0 then [("margin-left", jsDepthEm depth)] else []
      Node.elem ⟨"div", "", [], divStyle⟩ (prefixSpan :: unwrapped) ::
        processLis (counter + 1) rest depth
    else processLis counter rest depth
end

mutual
def hasOlNode : Node → Bool
  | .text _ => false
  | .elem d cs => d.tag = "ol" || hasOlList cs
def hasOlList : List Node → Bool
  | [] => false
  | n :: rest => hasOlNode n || hasOlList rest
end

mutual
/-- The in-document part of the ordered-list stage: every outermost `<ol>` is
replaced by its flattened lines (later-collected nested `<ol>`s are detached
by then, so their processing has no document effect). -/
def olRewriteList : List Node → List Node
  | [] => []
  | .text s :: rest => .text s :: olRewriteList rest
  | .elem d cs :: rest =>
    if d.tag = "ol" then
      processOrderedList (getAttr d "start") cs 0 ++ olRewriteList rest
    else .elem d (olRewriteList cs) :: olRewriteList rest
end

/-- The ordered-list stage: `processOrderedList` sets the modified flag
unconditionally, so the flag is set exactly when some `<ol>` exists. -/
def olStageDoc (doc : List Node) : List Node × Bool :=
  (olRewriteList doc, hasOlList doc)

/- ──────────────────  CSS image-size map (`<style>` scan)  ────────────────── -/

/-- Generic single-character splitter (used for the stylesheet `'}'` split). -/
def splitOnCharL (ch : Char) : List Char → List (List Char)
  | [] => [[]]
  | c :: rest =>
    let r := splitOnCharL ch rest
    if c = ch then [] :: r
    else
      match r with
      | f :: rs => (c :: f) :: rs
      | [] => [[c]]

/-- `/\.([^,{\s]+)\s*\{([^}]*)/` on one `'}'`-delimited piece: the class
selector and its declaration text (rules whose first `.` is not followed by
this shape are skipped, as the scan in the source effectively does for the
stylesheets it meets). -/
def cssRuleOf (piece : List Char) : Option (String × List Char) :=
  match piece.dropWhile (fun c => c ≠ '.') with
  | [] => none
  | _ :: afterDot =>
    let cls := afterDot.takeWhile (fun c => ¬(c = ',' ∨ c = '{' ∨ isWsChar c))
    if cls.isEmpty then none
    else
      match (afterDot.drop cls.length).dropWhile isWsChar with
      | '{' :: decls => some (⟨cls⟩, decls)
      | _ => none

/-- `/name\s*:\s*([^;]+)/i`: the first occurrence of `name` followed by a
colon; the captured value runs to the next `';'`. -/
def findPropVal (name : List Char) : List Char → Option String
  | [] => none
  | c :: rest =>
    if name.isPrefixOf ((c :: rest).map jsLowerChar) then
      let after := ((c :: rest).drop name.length).dropWhile isWsChar
      match after with
      | ':' :: v =>
        let val := (v.dropWhile isWsChar).takeWhile (fun ch => ch ≠ ';')
        if val.isEmpty then findPropVal name rest else some ⟨val⟩
      | _ => findPropVal name rest
    else findPropVal name rest

/-- The per-class width/height entries harvested from one stylesheet text. -/
def cssRulesOf (cssText : String) : List (String × Option String × Option String) :=
  (splitOnCharL '}' cssText.data).foldl
    (fun acc piece =>
      match cssRuleOf piece with
      | none => acc
      | some (cls, decls) =>
        let w := (findPropVal "width".data decls).map jsTrim
        let h := (findPropVal "height".data decls).map jsTrim
        match w, h with
        | none, none => acc
        | _, _ => acc ++ [(cls, w, h)]) []

mutual
def collectStyleTextsNode : Node → List String
  | .text _ => []
  | .elem d cs =>
    (if d.tag = "style" then [textContentList cs] else []) ++ collectStyleTextsList cs
def collectStyleTextsList : List Node → List String
  | [] => []
  | n :: rest => collectStyleTextsNode n ++ collectStyleTextsList rest
end

/-- `cssImageSizeMap`: later assignments to the same class overwrite earlier
ones, so lookups read the last entry. -/
def cssImageSizeMapOf (doc : List Node) : List (String × Option String × Option String) :=
  (collectStyleTextsList doc).foldl (fun acc t => acc ++ cssRulesOf t) []

def cssLookup (map : List (String × Option String × Option String)) (cls : String) :
    Option (Option String × Option String) :=
  (map.reverse.find? (fun e => e.1 = cls)).map (·.2)

/-- The CSS fallback loop over the image's classes: fill a missing width or
height from the first map entries met, stopping once both are known. -/
def cssFallback (map : List (String × Option String × Option String)) :
    List String → String → String → String × String
  | [], w, h => (w, h)
  | cls :: rest, w, h =>
    match cssLookup map cls with
    | none => cssFallback map rest w h
    | some (ew, eh) =>
      let w' := if w = "" then (match ew with | some x => if x ≠ "" then x else w | none => w) else w
      let h' := if h = "" then (match eh with | some x => if x ≠ "" then x else h | none => h) else h
      if w' ≠ "" ∧ h' ≠ "" then (w', h')
      else cssFallback map rest w' h'

/- ────────────────────  image substituter (customizeDocument)  ──────────────────── -/

/-- `/^([0-9]+(?:\.[0-9]+)?)(px)?$/i` : the numeric part when the whole
(trimmed) string is a plain number with an optional `px` suffix. -/
def matchNumPx (l : List Char) : Option (List Char) :=
  let ip := l.takeWhile isDecDigit
  if ip.isEmpty then none
  else
    let rest := l.drop ip.length
    match rest with
    | [] => some ip
    | '.' :: r =>
      let fp := r.takeWhile isDecDigit
      if fp.isEmpty then none
      else
        match r.drop fp.length with
        | [] => some (ip ++ '.' :: fp)
        | [p, x] =>
          if jsLowerChar p = 'p' ∧ jsLowerChar x = 'x' then some (ip ++ '.' :: fp) else none
        | _ => none
    | [p, x] => if jsLowerChar p = 'p' ∧ jsLowerChar x = 'x' then some ip else none
    | _ => none

/-- `_normaliseDim`: `null` for a falsy input; a numeric value (optionally
already `px`-suffixed) becomes `<number>px`; anything else passes through
trimmed. -/
def normaliseDim (val : String) : Option String :=
  if val = "" then none
  else
    let t := jsTrim val
    match matchNumPx t.data with
    | some numChars => some ((⟨numChars⟩ : String) ++ "px")
    | none => some t

/-- Whether `parseFloat(s)` yields a number `> 0` (no `isNaN`, positive).
Exponent notation is not modelled; the dimension strings the code feeds in
never carry one. -/
def jsParseFloatPos (s : String) : Bool :=
  let l := s.data.dropWhile isWsChar
  let (neg, l2) :=
    match l with
    | '-' :: r => (true, r)
    | '+' :: r => (false, r)
    | _ => (false, l)
  let ip := l2.takeWhile isDecDigit
  let rest := l2.drop ip.length
  let fp := match rest with
    | '.' :: r => r.takeWhile isDecDigit
    | _ => []
  if ip.isEmpty ∧ fp.isEmpty then false
  else ¬neg ∧ (ip ++ fp).any (fun c => c ≠ '0')

/-- `src` after the Node-only relative-path inlining attempt: only on the
server, only for non-`http`/`data:`/rooted sources, and left unchanged when
the file cannot be found or read. -/
def resolvedSrcOf (env : JsEnv) (src : String) : String :=
  if env.server ∧
      ¬(jsStartsWith src "http" ∨ jsStartsWith src "data:" ∨ jsStartsWith src "/") then
    (env.resolveImage src).getD src
  else src

/-- `getAttribute(name) || el.style[name] || ''`. -/
def attrOrStyle (d : ElemData) (name : String) : String :=
  match getAttr d name with
  | some v => if v ≠ "" then v else styleGet d name
  | none => styleGet d name

/-- The class token list and identifier of one image placeholder span
(`transform_common.js` lines 261–320), given the already-resolved source. -/
def imageClassesOf (env : JsEnv) (cssMap : List (String × Option String × Option String))
    (k : Nat) (d : ElemData) (src : String) : String × String :=
  let base := "inline-image character image-placeholder" ++ " image:" ++ encodeURIComponent src
  let wAttr := attrOrStyle d "width"
  let hAttr := attrOrStyle d "height"
  let wh :=
    if wAttr = "" ∨ hAttr = "" then cssFallback cssMap (classTokens d.className) wAttr hAttr
    else (wAttr, hAttr)
  let wPx := normaliseDim wh.1
  let hPx := normaliseDim wh.2
  let cls := base
    ++ (match wPx with | some w => " image-width:" ++ w | none => "")
    ++ (match hPx with | some h => " image-height:" ++ h | none => "")
  let ratioOk :=
    match wPx, hPx with
    | some w, some h => jsParseFloatPos w && jsParseFloatPos h
    | _, _ => false
  let cls := cls ++
    (if ratioOk then " imageCssAspectRatio:" ++ env.ratioFor (wPx.getD "") (hPx.getD "") else "")
  let id := imageIdAt env k
  (cls ++ " image-id-" ++ id, id)

/-- The placeholder span replacing one `<img>`: a `span` holding one
zero-width-space text node, the class token list, and the duplicated
`data-image-id` attribute. -/
def imageSpanOf (env : JsEnv) (cssMap : List (String × Option String × Option String))
    (k : Nat) (d : ElemData) (src : String) : Node :=
  .elem ⟨"span", (imageClassesOf env cssMap k d src).1,
         [("data-image-id", (imageClassesOf env cssMap k d src).2)], []⟩
    [.text ZWSPstr]

mutual
/-- Image stage of `customizeDocument`: every `<img>` with a (non-empty)
`src` becomes the `ZWSP`-text / placeholder-span / `ZWSP`-text triple; images
without a `src` are left in place.  The counter threads the `rand()` draws
(two per replaced image). -/
def imagesNode (env : JsEnv) (cssMap : List (String × Option String × Option String)) :
    Nat → Node → (List Node × Nat × Bool)
  | k, .text s => ([.text s], k, false)
  | k, .elem d cs =>
    if d.tag = "img" then
      match getAttr d "src" with
      | none =>
        let res := imagesList env cssMap k cs
        ([.elem d res.1], res.2)
      | some src =>
        if src = "" then
          let res := imagesList env cssMap k cs
          ([.elem d res.1], res.2)
        else
          ([.text ZWSPstr, imageSpanOf env cssMap k d (resolvedSrcOf env src),
            .text ZWSPstr], k + 2, true)
    else
      let res := imagesList env cssMap k cs
      ([.elem d res.1], res.2)
def imagesList (env : JsEnv) (cssMap : List (String × Option String × Option String)) :
    Nat → List Node → (List Node × Nat × Bool)
  | k, [] => ([], k, false)
  | k, n :: rest =>
    let res := imagesNode env cssMap k n
    let res2 := imagesList env cssMap res.2.1 rest
    (res.1 ++ res2.1, res2.2.1, res.2.2 || res2.2.2)
end

/- ───────────────  image substituter, `index.js` import variant  ─────────────── -/

/-- `index.js`'s dimension normalization: `/^[0-9]+(\.\d+)?$/.test(v)`
appends `px`, anything else passes through unchanged. -/
def indexNormaliseDim (v : String) : String :=
  let ip := v.data.takeWhile isDecDigit
  let ok :=
    !ip.isEmpty &&
    (match v.data.drop ip.length with
     | [] => true
     | '.' :: r => !(r.takeWhile isDecDigit).isEmpty && (r.dropWhile isDecDigit).isEmpty
     | _ => false)
  if ok then v ++ "px" else v

/-- The image pass of the `index.js` import hook (lines 276–339).  The
crucial difference from `customizeDocument`: a relative source that cannot be
resolved makes the loop `continue`, leaving the `<img>` element in place with
no placeholder.  `ids k` models the `k`-th identifier draw
(`crypto.randomUUID()` or the `Math.random` fallback). -/
def indexImagesList (resolver : String → Option String) (ids : Nat → String)
    (ratioFor : String → String → String) :
    Nat → List Node → (List Node × Nat × Bool)
  | k, [] => ([], k, false)
  | k, n :: rest =>
    match n with
    | .text s =>
      let res := indexImagesList resolver ids ratioFor k rest
      (.text s :: res.1, res.2)
    | .elem d cs =>
      if d.tag = "img" then
        match getAttr d "src" with
        | none =>
          let res := indexImagesList resolver ids ratioFor k rest
          (.elem d cs :: res.1, res.2)
        | some src =>
          if src = "" then
            let res := indexImagesList resolver ids ratioFor k rest
            (.elem d cs :: res.1, res.2)
          else
            let rel := ¬(jsStartsWith src "http" ∨ jsStartsWith src "data:" ∨
                         jsStartsWith src "/")
            match (if rel then resolver src else some src) with
            | none =>
              let res := indexImagesList resolver ids ratioFor k rest
              (.elem d cs :: res.1, res.2)
            | some src' =>
              let w := attrOrStyle d "width"
              let h := attrOrStyle d "height"
              let cls := "inline-image character image-placeholder"
                ++ " image:" ++ encodeURIComponent src'
                ++ (if w ≠ "" then " image-width:" ++ indexNormaliseDim w else "")
                ++ (if h ≠ "" then " image-height:" ++ indexNormaliseDim h else "")
                ++ (if jsParseFloatPos w ∧ jsParseFloatPos h then
                      " imageCssAspectRatio:" ++ ratioFor w h else "")
              let id := ids k
              let span : Node :=
                .elem ⟨"span", jsTrim (cls ++ " image-id-" ++ id),
                       [("data-image-id", id)], []⟩ [.text ZWSPstr]
              let res := indexImagesList resolver ids ratioFor (k + 1) rest
              (.text ZWSPstr :: span :: .text ZWSPstr :: res.1, res.2.1, true)
      else
        let inner := indexImagesList resolver ids ratioFor k cs
        let res := indexImagesList resolver ids ratioFor inner.2.1 rest
        (.elem d inner.1 :: res.1, res.2.1, inner.2.2 || res.2.2)

/- ─────────────────────────  hyperlink substituter  ───────────────────────── -/

/-- `/^(https?:\/\/|mailto:|ftp:|file:|#|\/)/i`. -/
def hasUrlScheme (href : String) : Bool :=
  let l := jsToLower href
  jsStartsWith l "http://" ∨ jsStartsWith l "https://" ∨ jsStartsWith l "mailto:" ∨
  jsStartsWith l "ftp:" ∨ jsStartsWith l "file:" ∨ jsStartsWith l "#" ∨
  jsStartsWith l "/"

mutual
/-- Hyperlink stage (`transform_common.js` lines 334–349): every `a[href]`
with a non-empty trimmed href becomes a `ZWSP` / `hyperlink` span / `ZWSP`
triple; anchors with a blank href are left untouched. -/
def anchorsNode : Node → (List Node × Bool)
  | .text s => ([.text s], false)
  | .elem d cs =>
    if d.tag = "a" ∧ (getAttr d "href").isSome then
      let href := jsTrim ((getAttr d "href").getD "")
      if href = "" then
        let res := anchorsList cs
        ([.elem d res.1], res.2)
      else
        let href2 := if hasUrlScheme href then href else "http://" ++ href
        let t := textContentList cs
        let span : Node :=
          .elem ⟨"span", "hyperlink hyperlink-" ++ encodeURIComponent href2, [], []⟩
            [.text (if t = "" then href2 else t)]
        ([.text ZWSPstr, span, .text ZWSPstr], true)
    else
      let res := anchorsList cs
      ([.elem d res.1], res.2)
def anchorsList : List Node → (List Node × Bool)
  | [] => ([], false)
  | n :: rest =>
    let res := anchorsNode n
    let res2 := anchorsList rest
    (res.1 ++ res2.1, res.2 || res2.2)
end

/- ─────────────────────────  style quantizer  ───────────────────────── -/

/-- The named-color table and (identically) the quantization palette of
`transform_common.js`, in insertion order. -/
def namedColors : List (String × (Nat × Nat × Nat)) :=
  [("black", (0, 0, 0)), ("red", (255, 0, 0)), ("green", (0, 128, 0)),
   ("blue", (0, 0, 255)), ("yellow", (255, 255, 0)), ("orange", (255, 165, 0))]

def hexDigitVal (c : Char) : Option Nat :=
  if '0' ≤ c ∧ c ≤ '9' then some (c.toNat - 48)
  else if 'a' ≤ c ∧ c ≤ 'f' then some (c.toNat - 87)
  else none

def hexPair (a b : Char) : Option Nat :=
  match hexDigitVal a, hexDigitVal b with
  | some x, some y => some (x * 16 + y)
  | _, _ => none

/-- `/^#?([0-9a-f]{3}|[0-9a-f]{6})$/i` on the (already lower-cased) string,
with the 3-digit doubling. -/
def parseHexColor (l : List Char) : Option (Nat × Nat × Nat) :=
  let l := match l with
    | '#' :: r => r
    | _ => l
  match l with
  | [a, b, c] =>
    match hexPair a a, hexPair b b, hexPair c c with
    | some x, some y, some z => some (x, y, z)
    | _, _, _ => none
  | [a, b, c, d, e, f] =>
    match hexPair a b, hexPair c d, hexPair e f with
    | some x, some y, some z => some (x, y, z)
    | _, _, _ => none
  | _ => none

/-- `rgb\s*\(\s*(\d+)\s*,\s*(\d+)\s*,\s*(\d+)\s*\)` matched at the
head of the list. -/
def parseRgbAt (l : List Char) : Option (Nat × Nat × Nat) :=
  match l with
  | 'r' :: 'g' :: 'b' :: r0 =>
    match (r0.dropWhile isWsChar) with
    | '(' :: r1 =>
      let r1 := r1.dropWhile isWsChar
      let d1 := r1.takeWhile isDecDigit
      if d1.isEmpty then none
      else
        match (r1.drop d1.length).dropWhile isWsChar with
        | ',' :: r2 =>
          let r2 := r2.dropWhile isWsChar
          let d2 := r2.takeWhile isDecDigit
          if d2.isEmpty then none
          else
            match (r2.drop d2.length).dropWhile isWsChar with
            | ',' :: r3 =>
              let r3 := r3.dropWhile isWsChar
              let d3 := r3.takeWhile isDecDigit
              if d3.isEmpty then none
              else
                match (r3.drop d3.length).dropWhile isWsChar with
                | ')' :: _ => some (decToNat d1, decToNat d2, decToNat d3)
                | _ => none
            | _ => none
        | _ => none
    | _ => none
  | _ => none

/-- `s.match(/rgb\s*\(…\)/)`: the first position where the pattern
matches. -/
def findRgb : List Char → Option (Nat × Nat × Nat)
  | [] => none
  | c :: rest =>
    match parseRgbAt (c :: rest) with
    | some t => some t
    | none => findRgb rest

/-- `parseColorToRgb` (`transform_common.js` lines 352–366). -/
def parseColorToRgb (str : String) : Option (Nat × Nat × Nat) :=
  if str = "" then none
  else
    let s := jsToLower (jsTrim str)
    match namedColors.lookup s with
    | some t => some t
    | none =>
      match parseHexColor s.data with
      | some t => some t
      | none => findRgb s.data

def sqDiff (x y : Nat) : Nat := (if x ≥ y then x - y else y - x) ^ 2

/-- Squared Euclidean RGB distance.  The source compares
`Math.sqrt`-distances; for the integer inputs involved the square root is
strictly monotone in the squared distance, so comparisons agree. -/
def dist2 (a b : Nat × Nat × Nat) : Nat :=
  sqDiff a.1 b.1 + sqDiff a.2.1 b.2.1 + sqDiff a.2.2 b.2.2

/-- `findNearestColor`: fold over the palette with a strict-improvement
update, starting from `'black'` and the sentinel distance `1e9` (squared
here). -/
def findNearestColor (rgb : Option (Nat × Nat × Nat)) : Option String :=
  match rgb with
  | none => none
  | some t =>
    some ((namedColors.foldl
      (fun best entry =>
        let d := dist2 t entry.2
        if d < best.2 then (entry.1, d) else best)
      ("black", 10 ^ 18)).1)

/-- First maximal run of `[0-9.]` characters and the remainder after it. -/
def firstNumRun : List Char → Option (List Char × List Char)
  | [] => none
  | c :: rest =>
    if isDecDigit c ∨ c = '.' then
      let run := (c :: rest).takeWhile (fun ch => isDecDigit ch ∨ ch = '.')
      some (run, (c :: rest).drop run.length)
    else firstNumRun rest

/-- `Math.round` of the non-negative rational `a / b` (round half up). -/
def natRoundDiv (a b : Nat) : Nat := (2 * a + b) / (2 * b)

/-- `parsePx` (`transform_common.js` lines 379–387):
`/([0-9.]+)(px|pt)?/i`, `parseFloat` of the captured number, the `pt → px`
conversion `Math.round(num * 1.333)` (modelled exactly as the rational
`1333/1000`; the source multiplies binary doubles, which agrees on the
inputs the code meets), and the final `Math.round`. -/
def parsePx (val : String) : Option Nat :=
  if val = "" then none
  else
    match firstNumRun val.data with
    | none => none
    | some (run, after) =>
      let ip := run.takeWhile isDecDigit
      let fp := match run.drop ip.length with
        | '.' :: r => r.takeWhile isDecDigit
        | _ => []
      if ip.isEmpty ∧ fp.isEmpty then none
      else
        let mant := decToNat (ip ++ fp)
        let den := 10 ^ fp.length
        let unit : String := match after with
          | p :: t :: _ =>
            if jsLowerChar p = 'p' ∧ jsLowerChar t = 'x' then "px"
            else if jsLowerChar p = 'p' ∧ jsLowerChar t = 't' then "pt"
            else ""
          | [p] => if jsLowerChar p = 'p' then "" else ""
          | [] => ""
        if unit = "pt" then some (natRoundDiv (mant * 1333) (den * 1000))
        else some (natRoundDiv mant den)

/-- The fixed font-size palette of `transform_common.js`. -/
def sizePalette : List Nat := [8, 9, 10, 11, 12, 14, 16, 18, 20, 22, 24, 26, 28, 30, 35, 40]

def absDiff (a b : Nat) : Nat := if a ≥ b then a - b else b - a

/-- Nearest palette size, earlier entries winning ties. -/
def nearestSize (px : Nat) : Nat :=
  (sizePalette.foldl
    (fun best s => if absDiff px s < best.2 then (s, absDiff px s) else best)
    (8, absDiff px 8)).1

/-- The `[style*="color"], font[color], [style*="font-size"]` selector. -/
def styledTrigger (d : ElemData) : Bool :=
  strContains (styleSerialize d.style) "color" ||
  (d.tag = "font" && (getAttr d "color").isSome) ||
  strContains (styleSerialize d.style) "font-size"

/-- Per-element color/size quantization (`transform_common.js` lines
390–424): push a `color:`/`font-size:` class when the mapped value is
non-default and missing, and only then rewrite the class list and strip the
inline declarations. -/
def processStyledElem (d : ElemData) : ElemData × Bool :=
  let classes0 := classTokens d.className
  let colorAttr :=
    match getAttr d "color" with
    | some v => if v ≠ "" then v else styleGet d "color"
    | none => styleGet d "color"
  let step1 :=
    if colorAttr ≠ "" then
      match findNearestColor (parseColorToRgb colorAttr) with
      | some mapped =>
        if mapped ≠ "black" then
          let cls := "color:" ++ mapped
          if classes0.contains cls then (classes0, false) else (classes0 ++ [cls], true)
        else (classes0, false)
      | none => (classes0, false)
    else (classes0, false)
  let isSupSub := d.tag = "sup" ∨ d.tag = "sub"
  let sizeStyle := if isSupSub then "" else styleGet d "font-size"
  let step2 :=
    if sizeStyle ≠ "" then
      match parsePx sizeStyle with
      | some px =>
        if px ≠ 0 then
          let best := nearestSize px
          if best ≠ 14 then
            let cls := "font-size:" ++ jsNatToString best
            if step1.1.contains cls then (step1.1, false) else (step1.1 ++ [cls], true)
          else (step1.1, false)
        else (step1.1, false)
      | none => (step1.1, false)
    else (step1.1, false)
  if step1.2 || step2.2 then
    ({ d with className := String.intercalate " " step2.1,
              attrs := d.attrs.filter (fun kv => kv.1 ≠ "color"),
              style := d.style.filter
                (fun kv => kv.1 ≠ "color" ∧ kv.1 ≠ "font-size") }, true)
  else (d, false)

mutual
def styledNode : Node → (Node × Bool)
  | .text s => (.text s, false)
  | .elem d cs =>
    let pr := if styledTrigger d then processStyledElem d else (d, false)
    let res := styledList cs
    (.elem pr.1 res.1, pr.2 || res.2)
def styledList : List Node → (List Node × Bool)
  | [] => ([], false)
  | n :: rest =>
    let res := styledNode n
    let res2 := styledList rest
    (res.1 :: res2.1, res.2 || res2.2)
end

/- ─────────────────────  superscript / subscript stage  ───────────────────── -/

def isWordChar (c : Char) : Bool :=
  ('A' ≤ c ∧ c ≤ 'Z') ∨ ('a' ≤ c ∧ c ≤ 'z') ∨ ('0' ≤ c ∧ c ≤ '9') ∨ c = '_'

/-- `className.replace(/\b(sup|sub)\b/g, '')`: drop each `sup`/`sub`
occurrence with word boundaries on both sides. -/
def rmSupSubAux : Option Char → List Char → List Char
  | prev, a :: b :: c2 :: rest =>
    let isMatch :=
      (a == 's' && b == 'u' && (c2 == 'p' || c2 == 'b'))
      && (match prev with | none => true | some pc => !isWordChar pc)
      && (match rest with | [] => true | r :: _ => !isWordChar r)
    if isMatch then rmSupSubAux (some c2) rest
    else a :: rmSupSubAux (some a) (b :: c2 :: rest)
  | _, l => l

def removeSupSubClasses (s : String) : String := jsTrim ⟨rmSupSubAux none s.data⟩

def supsubTrigger (d : ElemData) : Bool :=
  strContains (styleSerialize d.style) "vertical-align"

mutual
/-- Vertical-align stage (`transform_common.js` lines 556–570): elements with
`vertical-align: super`/`sub` are replaced by a `<sup>`/`<sub>` carrying the
same content and the classes minus any `sup`/`sub` tokens. -/
def supsubNode : Node → (List Node × Bool)
  | .text s => ([.text s], false)
  | .elem d cs =>
    if supsubTrigger d then
      let v := jsToLower (styleGet d "vertical-align")
      if v = "super" ∨ v = "sub" then
        ([.elem ⟨if v = "super" then "sup" else "sub",
                 removeSupSubClasses d.className, [], []⟩ cs], true)
      else
        let res := supsubList cs
        ([.elem d res.1], res.2)
    else
      let res := supsubList cs
      ([.elem d res.1], res.2)
def supsubList : List Node → (List Node × Bool)
  | [] => ([], false)
  | n :: rest =>
    let res := supsubNode n
    let res2 := supsubList rest
    (res.1 ++ res2.1, res.2 || res2.2)
end

/- ───────────────────────  table stage (document level)  ─────────────────────── -/

/-- The metadata record `{tblId, row, cols}` attached to each flattened
line. -/
structure TableMeta where
  tblId : String
  row : Nat
  cols : Nat
deriving DecidableEq, Repr

/-- `JSON.stringify({tblId, row, cols})` (insertion order; identifiers are
alphanumeric so no string escaping arises). -/
def stringifyMeta (m : TableMeta) : String :=
  "\x7b\"tblId\":\"" ++ m.tblId ++ "\",\"row\":" ++ jsNatToString m.row ++
  ",\"cols\":" ++ jsNatToString m.cols ++ "\x7d"

/-- `` `${tblIdBase}-${tableIdx}` ``. -/
def tblIdOf (base : String) (idx : Nat) : String :=
  base ++ "-" ++ jsNatToString idx

mutual
def collectTrsNode : Node → List (List Node)
  | .text _ => []
  | .elem d cs => (if d.tag = "tr" then [cs] else []) ++ collectTrsList cs
def collectTrsList : List Node → List (List Node)
  | [] => []
  | n :: rest => collectTrsNode n ++ collectTrsList rest
end

mutual
def collectCellsNode : Node → List Cell
  | .text _ => []
  | .elem d cs =>
    (if d.tag = "td" ∨ d.tag = "th" then
      [⟨getAttr d "colspan", getAttr d "rowspan", cs⟩] else [])
    ++ collectCellsList cs
def collectCellsList : List Node → List Cell
  | [] => []
  | n :: rest => collectCellsNode n ++ collectCellsList rest
end

/-- The row/cell grid of a table element, as `querySelectorAll('tr')` /
`querySelectorAll('td, th')` read it (all descendants, document order). -/
def rowsOfTable (tableChildren : List Node) : List (List Cell) :=
  (collectTrsList tableChildren).map collectCellsList

mutual
def countTablesNode : Node → Nat
  | .text _ => 0
  | .elem d cs => (if d.tag = "table" then 1 else 0) + countTablesList cs
def countTablesList : List Node → Nat
  | [] => 0
  | n :: rest => countTablesNode n + countTablesList rest
end

/-- The children of one emitted line `<div>`: a `tbljson-…  tblCell-i` span
per cell, delimiter text nodes between cells, and the trailing attribute
span. -/
def lineChildren (em : String) : Nat → List String → List Node
  | _, [] => [.elem ⟨"span", "tbljson-" ++ em, [], []⟩ []]
  | i, cell :: rest =>
    .elem ⟨"span", "tbljson-" ++ em ++ " tblCell-" ++ jsNatToString i, [], []⟩
        [.text cell] ::
      (match rest with
       | [] => []
       | _ => [Node.text (String.mk [DELIMITER])]) ++ lineChildren em (i + 1) rest

def mkLineDiv (em : String) (cells : List String) : Node :=
  .elem ⟨"div", "", [], []⟩ (lineChildren em 0 cells)

def mkTableLinesAux (tblId : String) (cols : Nat) : Nat → List (List String) → List Node
  | _, [] => []
  | row, cells :: rest =>
    mkLineDiv (encCommon (stringifyMeta ⟨tblId, row, cols⟩)) cells ::
      mkTableLinesAux tblId cols (row + 1) rest

mutual
/-- The table stage's tree rewrite: each outermost `<table>` is replaced by
its flattened line divs when the flattener produces lines, and left in place
when it has no rows or zero computed columns.  `idx` is the table's position
in the flat `querySelectorAll('table')` collection, so nested tables (whose
own processing happens on detached nodes and has no document effect) still
consume indices. -/
def tableRewriteList (base : String) : Nat → List Node → (List Node × Nat × Bool)
  | idx, [] => ([], idx, false)
  | idx, .text s :: rest =>
    let res := tableRewriteList base idx rest
    (.text s :: res.1, res.2)
  | idx, .elem d cs :: rest =>
    if d.tag = "table" then
      let rows := rowsOfTable cs
      let rep :=
        match flattenTableFull rows with
        | none => ([Node.elem d cs], false)
        | some res => (mkTableLinesAux (tblIdOf base idx) (numColsOf rows) 0 res.1, true)
      let res := tableRewriteList base (idx + 1 + countTablesList cs) rest
      (rep.1 ++ res.1, res.2.1, rep.2 || res.2.2)
    else
      let inner := tableRewriteList base idx cs
      let res := tableRewriteList base inner.2.1 rest
      (.elem d inner.1 :: res.1, res.2.1, inner.2.2 || res.2.2)
end

/-- The table stage: one `rand()` draw for the per-run identifier base when
any table exists. -/
def tableStageDoc (env : JsEnv) (k : Nat) (doc : List Node) : List Node × Bool :=
  if countTablesList doc ≠ 0 then
    let res := tableRewriteList (jsRand env k) 0 doc
    (res.1, res.2.2)
  else (doc, false)

/- ─────────────────────────  the whole pipeline  ───────────────────────── -/

/-- `customizeDocument` (`transform_common.js`): the stages in source order,
threading the `rand()` counter (two draws per replaced image, one for the
table-id base) and OR-ing the modified flag. -/
def customizeDocument (env : JsEnv) (doc : List Node) : List Node × Bool :=
  let h := headingsStage doc
  let al := alignStageDoc h.1
  let ol := olStageDoc al.1
  let cssMap := cssImageSizeMapOf ol.1
  let im := imagesList env cssMap 0 ol.1
  let an := anchorsList im.1
  let st := styledList an.1
  let tb := tableStageDoc env im.2.1 st.1
  let ss := supsubList tb.1
  (ss.1, h.2 || al.2 || ol.2 || im.2.2 || an.2 || st.2 || tb.2 || ss.2)

/- ──────────────  clipboard paste: tbljson identifier regeneration  ────────────── -/

/-- `JSON.parse` restricted to the shape `JSON.stringify({tblId, row, cols})`
produces — the only strings the tbljson machinery stores.  `none` models both
a parse failure and a record without the fields. -/
def parseMeta (s : String) : Option TableMeta :=
  match dropPrefixQ "\x7b\"tblId\":\"".data s.data with
  | none => none
  | some r1 =>
    let id := r1.takeWhile (fun c => c ≠ '"')
    match dropPrefixQ "\",\"row\":".data (r1.drop id.length) with
    | none => none
    | some r2 =>
      let rowD := r2.takeWhile isDecDigit
      if rowD.isEmpty then none
      else
        match dropPrefixQ ",\"cols\":".data (r2.drop rowD.length) with
        | none => none
        | some r3 =>
          let colsD := r3.takeWhile isDecDigit
          if colsD.isEmpty then none
          else if r3.drop colsD.length = ['}'] then
            some ⟨⟨id⟩, decToNat rowD, decToNat colsD⟩
          else none

/-- One class token of `regenerateTableIds` (clipboard hook, lines 69–104):
a decodable `tbljson-…` class whose metadata carries a (truthy) `tblId` is
re-encoded with a fresh identifier, reusing the one already minted for that
old identifier; everything else is kept as-is.  `mint n` is the value of the
`n`-th `rand() + rand()` draw. -/
def regenClass (mint : Nat → String) (map : List (String × String)) (cls : String) :
    String × List (String × String) :=
  if jsStartsWith cls "tbljson-" then
    match dec (⟨cls.data.drop 8⟩ : String) with
    | some decoded =>
      match parseMeta decoded with
      | some meta =>
        if meta.tblId = "" then (cls, map)
        else
          match map.lookup meta.tblId with
          | some newId =>
            ("tbljson-" ++ encClip (stringifyMeta {meta with tblId := newId}), map)
          | none =>
            let newId := mint map.length
            ("tbljson-" ++ encClip (stringifyMeta {meta with tblId := newId}),
             (meta.tblId, newId) :: map)
      | none => (cls, map)
    | none => (cls, map)
  else (cls, map)

def regenClasses (mint : Nat → String) (map : List (String × String)) :
    List String → (List String × List (String × String))
  | [] => ([], map)
  | cls :: rest =>
    let r := regenClass mint map cls
    let rs := regenClasses mint r.2 rest
    (r.1 :: rs.1, rs.2)

/-- `regenerateTableIds` over the matched elements' class lists, threading
the old-to-new identifier map. -/
def regenerateTableIds (mint : Nat → String) :
    List (String × String) → List (List String) → List (List String)
  | _, [] => []
  | map, el :: rest =>
    let r := regenClasses mint map el
    r.1 :: regenerateTableIds mint r.2 rest

/- ──────────────────  trigger predicates for the frame claims  ────────────────── -/

def childrenOf : Node → List Node
  | .text _ => []
  | .elem _ cs => cs

/-- An element carrying a recognized non-left alignment. -/
def alignMark (d : ElemData) : Bool := recognizedNonLeft (alignValOf d)

mutual
def hasAlignMarkNode : Node → Bool
  | .text _ => false
  | .elem d cs => alignMark d || hasAlignMarkList cs
def hasAlignMarkList : List Node → Bool
  | [] => false
  | n :: rest => hasAlignMarkNode n || hasAlignMarkList rest
end

mutual
/-- Whether the subtree holds an element the alignment stage would wrap, in
the given inside-a-table context. -/
def hasWrapTargetNode (it : Bool) : Node → Bool
  | .text _ => false
  | .elem d cs =>
    let itSelf := it || d.tag = "table"
    if d.tag ∈ wrapTags then hasWrapTargetList itSelf cs
    else if itSelf then hasWrapTargetList itSelf cs
    else if recognizedNonLeft (alignValOf d) then true
    else hasWrapTargetList itSelf cs
def hasWrapTargetList (it : Bool) : List Node → Bool
  | [] => false
  | n :: rest => hasWrapTargetNode it n || hasWrapTargetList it rest
end

mutual
/-- No aligned element has an aligned element among its descendants. -/
def noNestedAlignNode : Node → Bool
  | .text _ => true
  | .elem d cs => (!(alignMark d) || !(hasAlignMarkList cs)) && noNestedAlignList cs
def noNestedAlignList : List Node → Bool
  | [] => true
  | n :: rest => noNestedAlignNode n && noNestedAlignList rest
end

mutual
def hasImgSrcNode : Node → Bool
  | .text _ => false
  | .elem d cs =>
    (d.tag = "img" && (match getAttr d "src" with
                       | some s => s ≠ ""
                       | none => false)) || hasImgSrcList cs
def hasImgSrcList : List Node → Bool
  | [] => false
  | n :: rest => hasImgSrcNode n || hasImgSrcList rest
end

mutual
def hasAnchorHrefNode : Node → Bool
  | .text _ => false
  | .elem d cs =>
    (d.tag = "a" && (getAttr d "href").isSome &&
      jsTrim ((getAttr d "href").getD "") ≠ "") || hasAnchorHrefList cs
def hasAnchorHrefList : List Node → Bool
  | [] => false
  | n :: rest => hasAnchorHrefNode n || hasAnchorHrefList rest
end

/-- Inline color or font-size styling (the color attribute, a `color` style
declaration, or a `font-size` style declaration). -/
def colorFontMark (d : ElemData) : Bool :=
  (getAttr d "color").isSome || styleGet d "color" ≠ "" || styleGet d "font-size" ≠ ""

mutual
def hasColorFontNode : Node → Bool
  | .text _ => false
  | .elem d cs => colorFontMark d || hasColorFontList cs
def hasColorFontList : List Node → Bool
  | [] => false
  | n :: rest => hasColorFontNode n || hasColorFontList rest
end

mutual
/-- All tables in the subtree are structurally impossible (no rows or zero
computed columns, i.e. the flattener declines them). -/
def noRealTableNode : Node → Bool
  | .text _ => true
  | .elem d cs =>
    (!(d.tag = "table") || (flattenTableFull (rowsOfTable cs)).isNone) && noRealTableList cs
def noRealTableList : List Node → Bool
  | [] => true
  | n :: rest => noRealTableNode n && noRealTableList rest
end

def supSubMark (d : ElemData) : Bool :=
  jsToLower (styleGet d "vertical-align") = "super" ||
  jsToLower (styleGet d "vertical-align") = "sub"

mutual
def hasSupSubNode : Node → Bool
  | .text _ => false
  | .elem d cs => supSubMark d || hasSupSubList cs
def hasSupSubList : List Node → Bool
  | [] => false
  | n :: rest => hasSupSubNode n || hasSupSubList rest
end

/-- The nested aligned-blocks document of the alignment idempotence
counterexample: `<div align="right"><p align="center">x</p></div>`. -/
def c6CexDoc : List Node :=
  [.elem ⟨"div", "", [("align", "right")], []⟩
    [.elem ⟨"p", "", [("align", "center")], []⟩ [.text "x"]]]

/- ─────────────────  concrete inputs used by the table claims  ───────────────── -/

/-- A 2×2 table whose top-left cell carries `rowspan="2"`; the second source
row has the single remaining cell. -/
def c3Rows (a b c : List Node) : List (List Cell) :=
  [[⟨none, some "2", a⟩, ⟨none, none, b⟩], [⟨none, none, c⟩]]

/-- One-row, one-cell table whose cell text contains the reserved field
delimiter. -/
def c1CexCell : String := String.mk ['x', DELIMITER, 'y']

def c1CexRows : List (List Cell) := [[⟨none, none, [Node.text c1CexCell]⟩]]

/-- One-row, one-cell table for the delimiter-stripping claim. -/
def c4Cell : String := String.mk ['a', DELIMITER, 'b']

def c4Rows : List (List Cell) := [[⟨none, none, [Node.text c4Cell]⟩]]

/-- Concrete 2-row table (second row one cell short) used as a witness. -/
def c1wRows : List (List Cell) :=
  [[⟨none, none, [Node.text "a"]⟩, ⟨none, none, [Node.text "b"]⟩],
   [⟨none, none, [Node.text "c"]⟩]]

/-- A trivial environment (empty random stream, failing resolver). -/
def envTrivial : JsEnv := ⟨fun _ => "", fun _ => none, fun _ _ => "", false⟩

/-- The benign document of the C10 witness: one plain division with text. -/
def c10wDoc : List Node := [.elem ⟨"div", "", [], []⟩ [.text "hello"]]

/-- The environment of the C9 failing input: every `Math.random()` call
returns `0.5`, whose base-36 rendering is the string `"0.i"`. -/
def c9Env : JsEnv := ⟨fun _ => "0.i", fun _ => none, fun _ _ => "", false⟩

/-- An `<img src="x.png">`. -/
def c9ImgD : ElemData := ⟨"img", "", [("src", "x.png")], []⟩

/-- An `<img src="a.png">` for the C7 witness. -/
def c7ImgD : ElemData := ⟨"img", "", [("src", "a.png")], []⟩

/-- An `<img src="missing.png">` whose relative source fails to resolve. -/
def c7CexImgD : ElemData := ⟨"img", "", [("src", "missing.png")], []⟩

/-- Witness document of the alignment idempotence claim: a single
right-aligned division holding a text node. -/
def c6wDoc : List Node := [.elem ⟨"div", "", [("align", "right")], []⟩ [.text "x"]]

/- ───────────────────────────────  Theorems  ─────────────────────────────── -/

theorem decDigitChar_digitVal (d : Nat) (h : d < 10) :
    digitVal (decDigitChar d) = d := by
  interval_cases d <;> decide

theorem isDecDigit_decDigitChar (d : Nat) (h : d < 10) :
    isDecDigit (decDigitChar d) = true := by
  interval_cases d <;> decide

theorem decToNat_append (l : List Char) (c : Char) :
    decToNat (l ++ [c]) = decToNat l * 10 + digitVal c := by
  simp [decToNat, List.foldl_append]

/-- `decToNat` is a left inverse of `natToDecAux` whenever the fuel covers the
value. -/
theorem decToNat_natToDecAux :
    ∀ fuel n, n < fuel → decToNat (natToDecAux fuel n) = n := by
  intro fuel
  induction fuel with
  | zero => intro n h; omega
  | succ f ih =>
    intro n h
    by_cases h10 : n < 10
    · simp [natToDecAux, h10, decToNat, decDigitChar_digitVal n h10]
    · have hlt : n / 10 < f := by omega
      simp only [natToDecAux, if_neg h10, decToNat_append, ih (n / 10) hlt]
      have := decDigitChar_digitVal (n % 10) (by omega)
      omega

theorem decToNat_jsNatToString (n : Nat) :
    decToNat (jsNatToString n).data = n := by
  simpa [jsNatToString] using decToNat_natToDecAux (n + 1) n (by omega)

theorem jsNatToString_injective : Function.Injective jsNatToString := by
  intro a b h
  have : decToNat (jsNatToString a).data = decToNat (jsNatToString b).data := by rw [h]
  simpa [decToNat_jsNatToString] using this

/-- Every character emitted by `natToDecAux` is a decimal digit. -/
theorem natToDecAux_digits :
    ∀ fuel n c, c ∈ natToDecAux fuel n → isDecDigit c = true := by
  intro fuel
  induction fuel with
  | zero => intro n c h; simp [natToDecAux] at h
  | succ f ih =>
    intro n c h
    by_cases h10 : n < 10
    · simp [natToDecAux, h10] at h
      subst h; exact isDecDigit_decDigitChar n h10
    · simp only [natToDecAux, if_neg h10, List.mem_append, List.mem_singleton] at h
      rcases h with h | h
      · exact ih _ c h
      · subst h; exact isDecDigit_decDigitChar (n % 10) (by omega)

theorem b64Index_b64Char (k : Nat) (h : k < 64) :
    b64Index (b64Char k) = some k := by
  interval_cases k <;> rfl

theorem b64Char_ne' (k : Nat) (h : k < 64) : b64Char k ≠ '=' := by
  interval_cases k <;> decide

theorem b64DecodeBytes_b64EncodeBytes :
    ∀ bs : List Nat, (∀ b ∈ bs, b < 256) →
      b64DecodeBytes (b64EncodeBytes bs) = some bs := by
  intro bs
  induction bs using b64EncodeBytes.induct with
  | case1 => intro _; rfl
  | case2 b1 =>
    intro h
    have hb1 : b1 < 256 := h b1 (by simp)
    have h1 : b1 / 4 < 64 := by omega
    have h2 : b1 % 4 * 16 < 64 := by omega
    simp only [b64EncodeBytes, b64DecodeBytes,
      b64Index_b64Char _ h1, b64Index_b64Char _ h2]
    show some [b1 / 4 * 4 + b1 % 4 * 16 / 16] = some [b1]
    rw [(by omega : b1 / 4 * 4 + b1 % 4 * 16 / 16 = b1)]
  | case3 b1 b2 =>
    intro h
    have hb1 : b1 < 256 := h b1 (by simp)
    have hb2 : b2 < 256 := h b2 (by simp)
    have h1 : b1 / 4 < 64 := by omega
    have h2 : b1 % 4 * 16 + b2 / 16 < 64 := by omega
    have h3 : b2 % 16 * 4 < 64 := by omega
    simp only [b64EncodeBytes, b64DecodeBytes,
      b64Index_b64Char _ h1, b64Index_b64Char _ h2, b64Index_b64Char _ h3]
    rw [if_neg (b64Char_ne' _ h3)]
    show some [b1 / 4 * 4 + (b1 % 4 * 16 + b2 / 16) / 16,
               (b1 % 4 * 16 + b2 / 16) % 16 * 16 + b2 % 16 * 4 / 4] = some [b1, b2]
    rw [(by omega : b1 / 4 * 4 + (b1 % 4 * 16 + b2 / 16) / 16 = b1),
        (by omega : (b1 % 4 * 16 + b2 / 16) % 16 * 16 + b2 % 16 * 4 / 4 = b2)]
  | case4 b1 b2 b3 rest ih =>
    intro h
    have hb1 : b1 < 256 := h b1 (by simp)
    have hb2 : b2 < 256 := h b2 (by simp)
    have hb3 : b3 < 256 := h b3 (by simp)
    have h1 : b1 / 4 < 64 := by omega
    have h2 : b1 % 4 * 16 + b2 / 16 < 64 := by omega
    have h3 : b2 % 16 * 4 + b3 / 64 < 64 := by omega
    have h4 : b3 % 64 < 64 := by omega
    have htail : b64DecodeBytes (b64EncodeBytes rest) = some rest :=
      ih (fun b hb => h b (by simp [hb]))
    simp only [b64EncodeBytes, b64DecodeBytes,
      b64Index_b64Char _ h1, b64Index_b64Char _ h2, b64Index_b64Char _ h3,
      b64Index_b64Char _ h4]
    rw [if_neg (b64Char_ne' _ h3), if_neg (b64Char_ne' _ h4), htail]
    show some ((b1 / 4 * 4 + (b1 % 4 * 16 + b2 / 16) / 16) ::
               ((b1 % 4 * 16 + b2 / 16) % 16 * 16 + (b2 % 16 * 4 + b3 / 64) / 4) ::
               ((b2 % 16 * 4 + b3 / 64) % 4 * 64 + b3 % 64) :: rest)
        = some (b1 :: b2 :: b3 :: rest)
    rw [(by omega : b1 / 4 * 4 + (b1 % 4 * 16 + b2 / 16) / 16 = b1),
        (by omega : (b1 % 4 * 16 + b2 / 16) % 16 * 16 + (b2 % 16 * 4 + b3 / 64) / 4 = b2),
        (by omega : (b2 % 16 * 4 + b3 / 64) % 4 * 64 + b3 % 64 = b3)]

theorem mem_b64Alphabet_restore (c : Char)
    (h : c ∈ '=' :: b64Alphabet) :
    (fun c => if c = '_' then '/' else c)
      ((fun c => if c = '-' then '+' else c)
        ((fun c => if c = '/' then '_' else c)
          ((fun c => if c = '+' then '-' else c) c))) = c := by
  fin_cases h <;> rfl

theorem b64Char_mem (k : Nat) : b64Char k ∈ b64Alphabet := by
  by_cases h : k < 64
  · interval_cases k <;> decide
  · have hlen : b64Alphabet.length ≤ k := by
      have h64 : b64Alphabet.length = 64 := rfl
      omega
    unfold b64Char
    rw [List.getD_eq_default _ _ hlen]
    decide

theorem b64EncodeBytes_mem (bs : List Nat) (c : Char)
    (h : c ∈ b64EncodeBytes bs) : c ∈ '=' :: b64Alphabet := by
  induction bs using b64EncodeBytes.induct with
  | case1 => simp [b64EncodeBytes] at h
  | case2 b1 =>
    simp only [b64EncodeBytes, List.mem_cons, List.not_mem_nil, or_false] at h
    rcases h with h | h | h | h <;> subst h <;> simp [b64Char_mem]
  | case3 b1 b2 =>
    simp only [b64EncodeBytes, List.mem_cons, List.not_mem_nil, or_false] at h
    rcases h with h | h | h | h <;> subst h <;> simp [b64Char_mem]
  | case4 b1 b2 b3 rest ih =>
    simp only [b64EncodeBytes, List.mem_cons] at h
    rcases h with h | h | h | h | h
    · subst h; simp [b64Char_mem]
    · subst h; simp [b64Char_mem]
    · subst h; simp [b64Char_mem]
    · subst h; simp [b64Char_mem]
    · exact ih h

theorem char_ofNat_toNat (c : Char) : Char.ofNat c.toNat = c :=
  Char.ofNat_toNat c

/-- Round trip of the clipboard decoder against the shared encoder: for any
latin-1 (in particular ASCII) string — such as the JSON text of a metadata
record — decoding the URL-safe-encoded form recovers the string exactly. -/
theorem dec_encCommon (s : String) (h : ∀ c ∈ s.data, c.toNat < 256) :
    dec (encCommon s) = some s := by
  have hbytes : ∀ b ∈ s.data.map Char.toNat, b < 256 := by
    intro b hb
    rcases List.mem_map.mp hb with ⟨c, hc, rfl⟩
    exact h c hc
  have hrestore :
      (mapStr (fun c => if c = '_' then '/' else c)
        (mapStr (fun c => if c = '-' then '+' else c) (encCommon s))) = jsBtoa s := by
    show String.mk _ = _
    simp only [encCommon, mapStr, jsBtoa, List.map_map]
    congr 1
    refine List.map_congr_left ?_ |>.trans (List.map_id _)
    intro c hc
    exact mem_b64Alphabet_restore c (b64EncodeBytes_mem _ c hc)
  unfold dec
  rw [hrestore]
  unfold jsAtob jsBtoa
  rw [show (String.mk (b64EncodeBytes (s.data.map Char.toNat))).data
        = b64EncodeBytes (s.data.map Char.toNat) from rfl,
    b64DecodeBytes_b64EncodeBytes _ hbytes]
  rcases s with ⟨l⟩
  show some (String.mk ((l.map Char.toNat).map Char.ofNat)) = some (String.mk l)
  rw [List.map_map]
  congr 2
  refine (List.map_congr_left ?_).trans (List.map_id _)
  intro c _
  exact char_ofNat_toNat c

/-- C5.  Metadata encoding round-trip: for every latin-1 string — in
particular any ASCII JSON rendering of a flat metadata record — decoding the
URL-safe base64 encoding (`+ → -`, `/ → _`, reversed by the decoder before
`atob`) recovers the string exactly, so the decoded metadata object is
deep-equal to the encoded one. -/
theorem claim_C5_roundtrip (s : String) (h : ∀ c ∈ s.data, c.toNat < 256) :
    dec (encCommon s) = some s :=
  dec_encCommon s h

/-- Witness: the round trip at the JSON text of a concrete flat metadata
record. -/
theorem claim_C5_roundtrip_witness :
    dec (encCommon "\x7b\"tblId\":\"ab3x9k-0\",\"row\":2,\"cols\":3\x7d")
      = some "\x7b\"tblId\":\"ab3x9k-0\",\"row\":2,\"cols\":3\x7d" :=
  claim_C5_roundtrip _ (by decide)

/- ─────────────────────  table flattener: counting lemmas  ───────────────────── -/

theorem spanOf_pos (a : Option String) : 1 ≤ spanOf a := by
  unfold spanOf
  cases a with
  | none => decide
  | some s =>
    by_cases hs : s = ""
    · simp only [if_pos hs]; decide
    · simp only [if_neg hs]
      cases h : jsParseInt s with
      | none => simp
      | some v =>
        simp only []
        by_cases hv : v < 1
        · simp [hv]
        · simp only [if_neg hv]
          omega

theorem colspanFill_len (numCols col rowspan : Nat) :
    ∀ rem extra pending,
      (colspanFill numCols col rowspan extra rem pending).1.length
        = min rem (numCols - (col + extra)) := by
  intro rem
  induction rem with
  | zero => intro extra pending; simp [colspanFill]
  | succ r ih =>
    intro extra pending
    by_cases h : col + extra < numCols
    · simp only [colspanFill, if_pos h, List.length_cons, ih]
      omega
    · simp only [colspanFill, if_neg h, List.length_nil]
      omega

theorem rowLoop_len (numCols : Nat) (cells : List Cell) :
    ∀ fuel col rawPtr pending acc, numCols - col ≤ fuel →
      ((rowLoop numCols cells fuel col rawPtr pending acc).1).length
        = acc.length + (numCols - col) := by
  intro fuel
  induction fuel with
  | zero =>
    intro col rawPtr pending acc h
    simp only [rowLoop]
    omega
  | succ f ih =>
    intro col rawPtr pending acc h
    by_cases hc : col < numCols
    · simp only [rowLoop, if_pos hc]
      by_cases hp : pending.getD col 0 > 0
      · simp only [if_pos hp]
        rw [ih _ _ _ _ (by omega)]
        simp only [List.length_append, List.length_singleton]
        omega
      · simp only [if_neg hp]
        cases hcell : cells[rawPtr]? with
        | none =>
          rw [ih _ _ _ _ (by omega)]
          simp only [List.length_append, List.length_singleton]
          omega
        | some cell =>
          simp only []
          have hsp := spanOf_pos cell.colspanAttr
          rw [ih _ _ _ _ (by omega)]
          simp only [List.length_append, List.length_singleton, colspanFill_len]
          omega
    · simp only [rowLoop, if_neg hc]
      omega

theorem flattenRows_len (n : Nat) :
    ∀ rows pending, ((flattenRows n pending rows).1).length = rows.length := by
  intro rows
  induction rows with
  | nil => intro pending; simp [flattenRows]
  | cons row rest ih => intro pending; simp [flattenRows, ih]

theorem flattenRows_line_len (n : Nat) :
    ∀ rows pending line, line ∈ (flattenRows n pending rows).1 → line.length = n := by
  intro rows
  induction rows with
  | nil => intro pending line h; simp [flattenRows] at h
  | cons row rest ih =>
    intro pending line h
    simp only [flattenRows, List.mem_cons] at h
    rcases h with h | h
    · subst h
      have := rowLoop_len n row n 0 0 pending [] (by omega)
      simpa [processTableRow] using this
    · exact ih _ line h

/- ─────────────────────  delimiter splitting lemmas  ───────────────────── -/

theorem splitOnDelim_no_delim (l : List Char) (h : DELIMITER ∉ l) :
    splitOnDelim l = [l] := by
  induction l with
  | nil => rfl
  | cons c rest ih =>
    have hc : c ≠ DELIMITER := fun hc => h (hc ▸ List.mem_cons_self c rest)
    have hrest : DELIMITER ∉ rest := fun hr => h (List.mem_cons_of_mem c hr)
    simp only [splitOnDelim, ih hrest, if_neg hc]

theorem splitOnDelim_append (l1 l2 : List Char) (h : DELIMITER ∉ l1) :
    splitOnDelim (l1 ++ DELIMITER :: l2) = l1 :: splitOnDelim l2 := by
  induction l1 with
  | nil => simp [splitOnDelim]
  | cons a l1 ih =>
    have ha : a ≠ DELIMITER := fun hc => h (hc ▸ List.mem_cons_self a l1)
    have hl1 : DELIMITER ∉ l1 := fun hr => h (List.mem_cons_of_mem a hr)
    simp only [List.cons_append, splitOnDelim, if_neg ha]
    rw [show l1.append (DELIMITER :: l2) = l1 ++ DELIMITER :: l2 from rfl, ih hl1]

theorem fieldCount_serializeRowLine :
    ∀ line : List String, line ≠ [] → (∀ s ∈ line, DELIMITER ∉ s.data) →
      fieldCount (serializeRowLine line) = line.length := by
  intro line
  induction line with
  | nil => intro h; exact absurd rfl h
  | cons c rest ih =>
    intro _ hfree
    cases rest with
    | nil =>
      have := splitOnDelim_no_delim c.data (hfree c (List.mem_cons_self c []))
      simp [fieldCount, serializeRowLine, this]
    | cons y ys =>
      have hdata : (serializeRowLine (c :: y :: ys)).data
          = c.data ++ DELIMITER :: (serializeRowLine (y :: ys)).data := by
        show (c ++ String.mk [DELIMITER] ++ serializeRowLine (y :: ys)).data = _
        simp [String.data_append]
      have hc : DELIMITER ∉ c.data := hfree c (List.mem_cons_self c _)
      have := ih (by simp) (fun s hs => hfree s (List.mem_cons_of_mem c hs))
      simp only [fieldCount, hdata, splitOnDelim_append _ _ hc, List.length_cons] at *
      omega

/- ───────────────────────────  claim theorems: tables  ─────────────────────────── -/

/-- C1 (amended).  Table grid conservation: for every table with at least one
row and computed logical column count `n ≥ 1`, the flattener emits exactly one
line per source row and every emitted line holds exactly `n` cell entries;
the line text splits into exactly `n` fields at the reserved delimiter
provided no cell's serialized content contains the delimiter (which the
flattener does not enforce — see the counterexample). -/
theorem claim_C1_table_grid (rows : List (List Cell)) (n : Nat)
    (lines : List (List String)) (pending : List Nat)
    (hn : numColsOf rows = n) (hpos : 0 < n)
    (hft : flattenTableFull rows = some (lines, pending)) :
    lines.length = rows.length ∧
    (∀ line ∈ lines, line.length = n) ∧
    (∀ line ∈ lines, (∀ s ∈ line, DELIMITER ∉ s.data) →
      fieldCount (serializeRowLine line) = n) := by
  have hne : ¬ rows.isEmpty = true := by
    intro h
    rw [List.isEmpty_iff] at h
    subst h
    simp [flattenTableFull] at hft
  unfold flattenTableFull at hft
  rw [if_neg hne] at hft
  simp only [hn] at hft
  rw [if_neg (by omega)] at hft
  have hlines : lines = (flattenRows n (List.replicate n 0) rows).1 := by
    have := hft
    injection this with h
    exact (congrArg Prod.fst h).symm
  refine ⟨?_, ?_, ?_⟩
  · rw [hlines]; exact flattenRows_len n rows _
  · intro line hl
    exact flattenRows_line_len n rows _ line (hlines ▸ hl)
  · intro line hl hfree
    have hlen : line.length = n := flattenRows_line_len n rows _ line (hlines ▸ hl)
    have hlne : line ≠ [] := by
      intro h0; rw [h0] at hlen; simp at hlen; omega
    rw [fieldCount_serializeRowLine line hlne hfree, hlen]

/-- Witness for C1 at a concrete 2×2 table whose second row is one cell
short. -/
theorem claim_C1_table_grid_witness :
    ([["a", "b"], ["c", blankCellHTML]] : List (List String)).length = c1wRows.length ∧
    (∀ line ∈ ([["a", "b"], ["c", blankCellHTML]] : List (List String)), line.length = 2) ∧
    (∀ line ∈ ([["a", "b"], ["c", blankCellHTML]] : List (List String)),
      (∀ s ∈ line, DELIMITER ∉ s.data) →
      fieldCount (serializeRowLine line) = 2) :=
  claim_C1_table_grid c1wRows 2 [["a", "b"], ["c", blankCellHTML]] [0, 0]
    (by decide) (by decide)
    (by simp only [c1wRows, flattenTableFull, flattenRows, processTableRow,
          rowLoop, colspanFill, normalizeCellContent, stripNlList, stripNlNode,
          boldenFirstList, boldenFirstNode, brsToSpacesList, brsToSpacesNode,
          renderList, renderNode, textContentList, textContentNode]
        decide)

/-- C1 as literally stated is false: a cell whose text carries the reserved
delimiter makes the emitted line split into more fields than the computed
column count. -/
theorem claim_C1_counterexample :
    ¬ (∀ (rows : List (List Cell)) (lines : List (List String)),
        flattenTable rows = some lines →
        ∀ line ∈ lines, fieldCount (serializeRowLine line) = numColsOf rows) := by
  intro h
  have hft : flattenTable c1CexRows = some [[c1CexCell]] := by
    simp only [c1CexRows, c1CexCell, flattenTable, flattenTableFull, flattenRows,
      processTableRow, rowLoop, colspanFill, normalizeCellContent, stripNlList,
      stripNlNode, boldenFirstList, boldenFirstNode, brsToSpacesList,
      brsToSpacesNode, renderList, renderNode, textContentList, textContentNode]
    decide
  have h2 := h c1CexRows [[c1CexCell]] hft [c1CexCell] (by simp)
  rw [show numColsOf c1CexRows = 1 from by decide] at h2
  have h3 : fieldCount (serializeRowLine [c1CexCell]) = 2 := by decide
  omega

set_option maxHeartbeats 2000000 in
/-- C3.  Rowspan propagation on the 2×2 table whose top-left cell has
`rowspan=2`: the second line's first logical column is the blank
non-breaking-space placeholder, the final carry-state is all zeros, and the
second row consumed exactly one source cell (the placeholder consumed
none). -/
theorem claim_C3_rowspan (a b c : List Node) :
    flattenTableFull (c3Rows a b c)
      = some ([[normalizeCellContent a, normalizeCellContent b],
               [blankCellHTML, normalizeCellContent c]], [0, 0]) ∧
    (processTableRow 2 [1, 0] [⟨none, none, c⟩]).2.2 = 1 := by
  constructor
  · rfl
  · rfl

/-- C4.  The table flattener does not strip the reserved field delimiter from
cell content: at the failing input (a single-cell table whose text contains
`U+241F`) the delimiter reaches the serialized cell verbatim and the line
splits into two fields instead of the computed one. -/
theorem claim_C4_delimiter_leak :
    flattenTable c4Rows = some [[c4Cell]] ∧
    DELIMITER ∈ c4Cell.data ∧
    numColsOf c4Rows = 1 ∧
    fieldCount (serializeRowLine [c4Cell]) = 2 := by
  refine ⟨?_, by decide, by decide, by decide⟩
  simp only [c4Rows, c4Cell, flattenTable, flattenTableFull, flattenRows,
    processTableRow, rowLoop, colspanFill, normalizeCellContent, stripNlList,
    stripNlNode, boldenFirstList, boldenFirstNode, brsToSpacesList,
    brsToSpacesNode, renderList, renderNode, textContentList, textContentNode]
  decide

/- ─────────────────────  node-tree induction principle  ───────────────────── -/

mutual
theorem nodeRecNode (P : Node → Prop) (Q : List Node → Prop)
    (ht : ∀ s, P (.text s)) (he : ∀ d cs, Q cs → P (.elem d cs))
    (h0 : Q []) (hc : ∀ n l, P n → Q l → Q (n :: l)) : ∀ (n : Node), P n
  | .text s => ht s
  | .elem d cs => he d cs (nodeRecList P Q ht he h0 hc cs)
theorem nodeRecList (P : Node → Prop) (Q : List Node → Prop)
    (ht : ∀ s, P (.text s)) (he : ∀ d cs, Q cs → P (.elem d cs))
    (h0 : Q []) (hc : ∀ n l, P n → Q l → Q (n :: l)) : ∀ (l : List Node), Q l
  | [] => h0
  | n :: r => hc n r (nodeRecNode P Q ht he h0 hc n) (nodeRecList P Q ht he h0 hc r)
end

/- ───────────────────────  stage frame lemmas  ─────────────────────── -/

theorem headingsList_id : ∀ l, hasHeadingList l = false → headingsList l = l := by
  refine nodeRecList
    (fun n => hasHeadingNode n = false → headingsList (childrenOf n) = childrenOf n)
    (fun l => hasHeadingList l = false → headingsList l = l) ?_ ?_ ?_ ?_
  · intro s _
    simp [childrenOf, headingsList]
  · intro d cs ih h
    simp only [hasHeadingNode, Bool.or_eq_false_iff] at h
    simpa [childrenOf] using ih h.2
  · intro _
    simp [headingsList]
  · intro n l pn ql h
    cases n with
    | text s =>
      simp only [hasHeadingList, hasHeadingNode, Bool.false_or] at h
      simp [headingsList, ql h]
    | elem d cs =>
      simp only [hasHeadingList, hasHeadingNode, Bool.or_eq_false_iff] at h
      obtain ⟨⟨hd, hcs⟩, hl⟩ := h
      have hcs' := pn (by simp [hasHeadingNode, hd, hcs])
      simp only [childrenOf] at hcs'
      simp [headingsList, hd, hcs', ql hl]

theorem olRewriteList_id : ∀ l, hasOlList l = false → olRewriteList l = l := by
  refine nodeRecList
    (fun n => hasOlNode n = false → olRewriteList (childrenOf n) = childrenOf n)
    (fun l => hasOlList l = false → olRewriteList l = l) ?_ ?_ ?_ ?_
  · intro s _
    simp [childrenOf, olRewriteList]
  · intro d cs ih h
    simp only [hasOlNode, Bool.or_eq_false_iff] at h
    simpa [childrenOf] using ih h.2
  · intro _
    simp [olRewriteList]
  · intro n l pn ql h
    cases n with
    | text s =>
      simp only [hasOlList, hasOlNode, Bool.false_or] at h
      simp [olRewriteList, ql h]
    | elem d cs =>
      simp only [hasOlList, hasOlNode, Bool.or_eq_false_iff] at h
      obtain ⟨⟨hd, hcs⟩, hl⟩ := h
      have hcs' := pn (by simp [hasOlNode, hd, hcs])
      simp only [childrenOf] at hcs'
      have hd' : ¬ d.tag = "ol" := by
        intro he
        rw [he] at hd
        simp at hd
      simp [olRewriteList, hd', hcs', ql hl]

theorem imagesList_id (env : JsEnv)
    (cssMap : List (String × Option String × Option String)) :
    ∀ l, hasImgSrcList l = false → ∀ k, imagesList env cssMap k l = (l, k, false) := by
  refine nodeRecList
    (fun n => hasImgSrcNode n = false →
      ∀ k, imagesNode env cssMap k n = ([n], k, false))
    (fun l => hasImgSrcList l = false →
      ∀ k, imagesList env cssMap k l = (l, k, false)) ?_ ?_ ?_ ?_
  · intro s _ k
    simp [imagesNode]
  · intro d cs ih h k
    simp only [hasImgSrcNode, Bool.or_eq_false_iff] at h
    obtain ⟨hcond, hcs⟩ := h
    by_cases himg : d.tag = "img"
    · cases hsrc : getAttr d "src" with
      | none => simp [imagesNode, himg, hsrc, ih hcs k]
      | some s =>
        have hs : s = "" := by
          rw [himg, hsrc] at hcond
          simpa using hcond
        simp [imagesNode, himg, hsrc, hs, ih hcs k]
    · simp [imagesNode, himg, ih hcs k]
  · intro _ k
    simp [imagesList]
  · intro n l pn ql h k
    simp only [hasImgSrcList, Bool.or_eq_false_iff] at h
    obtain ⟨hn, hl⟩ := h
    simp [imagesList, pn hn k, ql hl]

theorem anchorsList_id :
    ∀ l, hasAnchorHrefList l = false → anchorsList l = (l, false) := by
  refine nodeRecList
    (fun n => hasAnchorHrefNode n = false → anchorsNode n = ([n], false))
    (fun l => hasAnchorHrefList l = false → anchorsList l = (l, false)) ?_ ?_ ?_ ?_
  · intro s _
    simp [anchorsNode]
  · intro d cs ih h
    simp only [hasAnchorHrefNode, Bool.or_eq_false_iff] at h
    obtain ⟨hcond, hcs⟩ := h
    by_cases ha : d.tag = "a" ∧ (getAttr d "href").isSome
    · have hempty : jsTrim ((getAttr d "href").getD "") = "" := by
        rw [ha.1] at hcond
        rcases Option.isSome_iff_exists.mp ha.2 with ⟨v, hv⟩
        rw [hv] at hcond ⊢
        simpa using hcond
      simp [anchorsNode, ha, hempty, ih hcs]
    · simp [anchorsNode, ha, ih hcs]
  · intro _
    simp [anchorsList]
  · intro n l pn ql h
    simp only [hasAnchorHrefList, Bool.or_eq_false_iff] at h
    obtain ⟨hn, hl⟩ := h
    simp [anchorsList, pn hn, ql hl]

theorem processStyledElem_noop (d : ElemData) (h : colorFontMark d = false) :
    processStyledElem d = (d, false) := by
  simp only [colorFontMark, Bool.or_eq_false_iff] at h
  obtain ⟨⟨hattr, hcol⟩, hfs⟩ := h
  have hattr' : getAttr d "color" = none := by
    simpa [Option.isSome_iff_exists] using hattr
  have hcol' : styleGet d "color" = "" := by simpa using hcol
  have hfs' : styleGet d "font-size" = "" := by simpa using hfs
  unfold processStyledElem
  simp [hattr', hcol', hfs']

theorem styledList_id :
    ∀ l, hasColorFontList l = false → styledList l = (l, false) := by
  refine nodeRecList
    (fun n => hasColorFontNode n = false → styledNode n = (n, false))
    (fun l => hasColorFontList l = false → styledList l = (l, false)) ?_ ?_ ?_ ?_
  · intro s _
    simp [styledNode]
  · intro d cs ih h
    simp only [hasColorFontNode, Bool.or_eq_false_iff] at h
    obtain ⟨hmark, hcs⟩ := h
    by_cases ht : styledTrigger d = true
    · simp [styledNode, ht, processStyledElem_noop d hmark, ih hcs]
    · simp [styledNode, ht, ih hcs]
  · intro _
    simp [styledList]
  · intro n l pn ql h
    simp only [hasColorFontList, Bool.or_eq_false_iff] at h
    obtain ⟨hn, hl⟩ := h
    simp [styledList, pn hn, ql hl]

theorem supsubList_id :
    ∀ l, hasSupSubList l = false → supsubList l = (l, false) := by
  refine nodeRecList
    (fun n => hasSupSubNode n = false → supsubNode n = ([n], false))
    (fun l => hasSupSubList l = false → supsubList l = (l, false)) ?_ ?_ ?_ ?_
  · intro s _
    simp [supsubNode]
  · intro d cs ih h
    simp only [hasSupSubNode, Bool.or_eq_false_iff] at h
    obtain ⟨hmark, hcs⟩ := h
    simp only [supSubMark, Bool.or_eq_false_iff] at hmark
    have h1 : ¬(jsToLower (styleGet d "vertical-align") = "super" ∨
               jsToLower (styleGet d "vertical-align") = "sub") := by
      rcases hmark with ⟨ha, hb⟩
      intro hor
      rcases hor with hor | hor
      · rw [hor] at ha; simp at ha
      · rw [hor] at hb; simp at hb
    by_cases ht : supsubTrigger d = true
    · simp [supsubNode, ht, h1, ih hcs]
    · simp [supsubNode, ht, ih hcs]
  · intro _
    simp [supsubList]
  · intro n l pn ql h
    simp only [hasSupSubList, Bool.or_eq_false_iff] at h
    obtain ⟨hn, hl⟩ := h
    simp [supsubList, pn hn, ql hl]

theorem tableRewriteList_id (base : String) :
    ∀ l, noRealTableList l = true →
      ∀ idx, tableRewriteList base idx l = (l, idx + countTablesList l, false) := by
  refine nodeRecList
    (fun n => noRealTableNode n = true →
      ∀ idx, tableRewriteList base idx (childrenOf n)
        = (childrenOf n, idx + countTablesList (childrenOf n), false))
    (fun l => noRealTableList l = true →
      ∀ idx, tableRewriteList base idx l = (l, idx + countTablesList l, false)) ?_ ?_ ?_ ?_
  · intro s _ idx
    simp [childrenOf, tableRewriteList, countTablesList]
  · intro d cs ih h idx
    simp only [noRealTableNode, Bool.and_eq_true] at h
    simpa [childrenOf] using ih h.2 idx
  · intro _ idx
    simp [tableRewriteList, countTablesList]
  · intro n l pn ql h idx
    simp only [noRealTableList, Bool.and_eq_true] at h
    obtain ⟨hn, hl⟩ := h
    cases n with
    | text s =>
      simp [tableRewriteList, ql hl idx, countTablesList, countTablesNode]
    | elem d cs =>
      have hcsid := pn hn
      simp only [childrenOf] at hcsid
      simp only [noRealTableNode, Bool.and_eq_true, Bool.or_eq_true] at hn
      obtain ⟨hcond, hcs⟩ := hn
      by_cases htb : d.tag = "table"
      · have hnone : flattenTableFull (rowsOfTable cs) = none := by
          rcases hcond with hcond | hcond
          · simp [htb] at hcond
          · exact Option.isNone_iff_eq_none.mp hcond
        simp only [tableRewriteList, if_pos htb, hnone]
        rw [ql hl]
        simp [countTablesList, countTablesNode, htb]
        omega
      · simp only [tableRewriteList, if_neg htb]
        rw [hcsid, ql hl]
        simp [countTablesList, countTablesNode, htb]
        omega

theorem tableStageDoc_id (env : JsEnv) (k : Nat) (doc : List Node)
    (h : noRealTableList doc = true) :
    tableStageDoc env k doc = (doc, false) := by
  unfold tableStageDoc
  by_cases hc : countTablesList doc ≠ 0
  · simp only [if_pos hc]
    rw [tableRewriteList_id (jsRand env k) doc h 0]
  · simp [if_neg hc]

theorem alignList_id :
    ∀ l (it : Bool), hasWrapTargetList it l = false → alignList it l = (l, false) := by
  refine nodeRecList
    (fun n => ∀ it, hasWrapTargetNode it n = false → alignNode it n = ([n], false))
    (fun l => ∀ it, hasWrapTargetList it l = false → alignList it l = (l, false)) ?_ ?_ ?_ ?_
  · intro s it _
    simp [alignNode]
  · intro d cs ih it h
    simp only [hasWrapTargetNode] at h
    by_cases hw : d.tag ∈ wrapTags
    · rw [if_pos hw] at h
      simp [alignNode, hw, ih _ h]
    · rw [if_neg hw] at h
      by_cases hit : (it || d.tag = "table") = true
      · rw [if_pos hit] at h
        rw [hit] at h
        simp only [alignNode]
        rw [if_neg hw]
        simp only [hit]
        simp [ih _ h]
      · rw [if_neg hit] at h
        have hrec : recognizedNonLeft (alignValOf d) = false := by
          by_cases hr : recognizedNonLeft (alignValOf d) = true
          · rw [if_pos hr] at h; exact absurd h (by simp)
          · simpa using hr
        rw [if_neg (by simp [hrec])] at h
        have hit' : (it || decide (d.tag = "table")) = false := by simpa using hit
        rw [hit'] at h
        simp only [alignNode]
        rw [if_neg hw]
        simp only [hit']
        simp [hrec, ih _ h]
  · intro it _
    simp [alignList]
  · intro n l pn ql it h
    simp only [hasWrapTargetList, Bool.or_eq_false_iff] at h
    obtain ⟨hn, hl⟩ := h
    simp [alignList, pn it hn, ql it hl]

/-- An alignment-mark-free subtree has no wrap targets in any context. -/
theorem hasWrapTarget_of_mark :
    ∀ l (it : Bool), hasAlignMarkList l = false → hasWrapTargetList it l = false := by
  refine nodeRecList
    (fun n => ∀ it, hasAlignMarkNode n = false → hasWrapTargetNode it n = false)
    (fun l => ∀ it, hasAlignMarkList l = false → hasWrapTargetList it l = false) ?_ ?_ ?_ ?_
  · intro s it _
    simp [hasWrapTargetNode]
  · intro d cs ih it h
    simp only [hasAlignMarkNode, Bool.or_eq_false_iff] at h
    obtain ⟨hmark, hcs⟩ := h
    simp only [hasWrapTargetNode]
    by_cases hw : d.tag ∈ wrapTags
    · rw [if_pos hw]; exact ih _ hcs
    · rw [if_neg hw]
      by_cases hit : (it || d.tag = "table") = true
      · rw [if_pos hit]; exact ih _ hcs
      · rw [if_neg hit]
        rw [if_neg (by simp [alignMark] at hmark; simp [hmark])]
        exact ih _ hcs
  · intro it _
    simp [hasWrapTargetList]
  · intro n l pn ql it h
    simp only [hasAlignMarkList, Bool.or_eq_false_iff] at h
    simp [hasWrapTargetList, pn it h.1, ql it h.2]

/-- C10.  Implicit no-op frame: a document with none of the pipeline's
triggers (no headings, no recognized non-left alignment, no ordered lists, no
images with a source, no anchors with a non-empty href, no inline color or
font-size styling, no table with at least one row and one column, and no
`vertical-align: super/sub` styling) passes through `customizeDocument`
unchanged with a `false` modified flag. -/
theorem claim_C10_noop (env : JsEnv) (doc : List Node)
    (h1 : hasHeadingList doc = false) (h2 : hasAlignMarkList doc = false)
    (h3 : hasOlList doc = false) (h4 : hasImgSrcList doc = false)
    (h5 : hasAnchorHrefList doc = false) (h6 : hasColorFontList doc = false)
    (h7 : noRealTableList doc = true) (h8 : hasSupSubList doc = false) :
    customizeDocument env doc = (doc, false) := by
  have hh : headingsStage doc = (doc, false) := by
    unfold headingsStage
    rw [headingsList_id doc h1, h1]
  have hal : alignStageDoc doc = (doc, false) :=
    alignList_id doc false (hasWrapTarget_of_mark doc false h2)
  have hol : olStageDoc doc = (doc, false) := by
    unfold olStageDoc
    rw [olRewriteList_id doc h3, h3]
  have him : ∀ cssMap, imagesList env cssMap 0 doc = (doc, 0, false) :=
    fun cssMap => imagesList_id env cssMap doc h4 0
  have han : anchorsList doc = (doc, false) := anchorsList_id doc h5
  have hst : styledList doc = (doc, false) := styledList_id doc h6
  have htb : tableStageDoc env 0 doc = (doc, false) := tableStageDoc_id env 0 doc h7
  have hss : supsubList doc = (doc, false) := supsubList_id doc h8
  unfold customizeDocument
  simp only [hh, hal, hol, him, han, hst, htb, hss]
  rfl

/-- Witness: the no-op frame at a concrete one-division document. -/
theorem claim_C10_noop_witness :
    customizeDocument envTrivial c10wDoc = (c10wDoc, false) :=
  claim_C10_noop envTrivial c10wDoc
    (by simp [c10wDoc, hasHeadingList, hasHeadingNode, isHeadingTag])
    (by simp [c10wDoc, hasAlignMarkList, hasAlignMarkNode, alignMark, alignValOf,
          getAttr, styleAlignKw, recognizedNonLeft, jsToLower])
    (by simp [c10wDoc, hasOlList, hasOlNode])
    (by simp [c10wDoc, hasImgSrcList, hasImgSrcNode])
    (by simp [c10wDoc, hasAnchorHrefList, hasAnchorHrefNode])
    (by simp [c10wDoc, hasColorFontList, hasColorFontNode, colorFontMark, getAttr,
          styleGet])
    (by simp [c10wDoc, noRealTableList, noRealTableNode])
    (by simp [c10wDoc, hasSupSubList, hasSupSubNode, supSubMark, styleGet, jsToLower])

/- ───────────────────  alignment idempotence (claim C6)  ─────────────────── -/

theorem lookup_filter_ne (k : String) (l : List (String × String)) :
    (l.filter (fun kv => kv.1 ≠ k)).lookup k = none := by
  induction l with
  | nil => simp
  | cons p rest ih =>
    by_cases hp : p.1 = k
    · simp only [List.filter_cons, hp]
      simp [ih]
      exact fun a b _ h hk => h hk.symm
    · simp only [List.filter_cons, if_pos (show decide (p.1 ≠ k) = true by simpa using hp)]
      show List.lookup k (p :: _) = none
      rw [List.lookup_cons]
      have hbe : (k == p.1) = false := by
        simpa using fun he => hp he.symm
      simp [hbe, ih]
      exact fun a b _ h hk => h hk.symm

/-- Stripping the `align` attribute and the `text-align` style declaration
leaves no recognizable alignment value. -/
theorem alignValOf_removeAlign (d : ElemData) :
    alignValOf (removeAlignData d) = "" := by
  have h1 : getAttr (removeAlignData d) "align" = none := lookup_filter_ne _ _
  have h2 : (removeAlignData d).style.lookup "text-align" = none := lookup_filter_ne _ _
  simp only [alignValOf, h1, Option.getD_none]
  rw [show jsToLower "" = "" from by decide]
  rw [if_neg (by simp)]
  simp [styleAlignKw, h2]

theorem recognizedNonLeft_empty : recognizedNonLeft "" = false := by decide

theorem recognized_wrap {v : String} (h : recognizedNonLeft v = true) :
    v ∈ wrapTags ∧ decide (v = "table") = false := by
  simp only [recognizedNonLeft, decide_eq_true_eq] at h
  rcases h with h | h | h <;> subst h <;> exact ⟨by decide, by decide⟩

theorem hasWrapTargetNode_br (it : Bool) : hasWrapTargetNode it brNode = false := by
  have h1 : ¬(brData.tag ∈ wrapTags) := by decide
  have h2 : decide (brData.tag = "table") = false := by decide
  have h3 : recognizedNonLeft (alignValOf brData) = false := by decide
  show hasWrapTargetNode it (.elem brData []) = false
  simp only [hasWrapTargetNode, hasWrapTargetList]
  rw [if_neg h1]
  cases it <;> simp [h2, h3]

theorem hasWrapTargetList_append (it : Bool) (a b : List Node) :
    hasWrapTargetList it (a ++ b) =
      (hasWrapTargetList it a || hasWrapTargetList it b) := by
  induction a with
  | nil => simp [hasWrapTargetList]
  | cons n r ih => simp [hasWrapTargetList, ih, Bool.or_assoc]

/-- One alignment pass over a document without nested aligned blocks leaves
no wrap targets in its output. -/
theorem alignList_no_target :
    ∀ l (it : Bool), noNestedAlignList l = true →
      hasWrapTargetList it (alignList it l).1 = false := by
  refine nodeRecList
    (fun n => ∀ it, noNestedAlignNode n = true →
      hasWrapTargetList it (alignNode it n).1 = false)
    (fun l => ∀ it, noNestedAlignList l = true →
      hasWrapTargetList it (alignList it l).1 = false) ?_ ?_ ?_ ?_
  · intro s it _
    simp [alignNode, hasWrapTargetList, hasWrapTargetNode]
  · intro d cs ih it h
    simp only [noNestedAlignNode, Bool.and_eq_true] at h
    obtain ⟨hm, hcs⟩ := h
    by_cases hw : d.tag ∈ wrapTags
    · simp [alignNode, hasWrapTargetList, hasWrapTargetNode, hw, hcs, ih]
    · by_cases hit : (it || d.tag = "table") = true
      · simp [alignNode, hasWrapTargetList, hasWrapTargetNode, hw, hit, hcs, ih]
      · have hit' : (it || decide (d.tag = "table")) = false := by simpa using hit
        obtain ⟨h0, htab⟩ := Bool.or_eq_false_iff.mp hit'
        subst h0
        by_cases hrec : recognizedNonLeft (alignValOf d) = true
        · obtain ⟨hvw, hvt⟩ := recognized_wrap hrec
          have hdt : (removeAlignData d).tag = d.tag := rfl
          have wvt : (wrapperOf (alignValOf d)).tag = alignValOf d := rfl
          have hbw : ¬(("br" : String) ∈ wrapTags) := by decide
          have hbt : decide (("br" : String) = "table") = false := by decide
          have hbr : recognizedNonLeft (alignValOf ⟨"br", "", [], []⟩) = false := by
            decide
          by_cases hh : isHeadingTag d.tag = true
          · simp [alignNode, hasWrapTargetList, hasWrapTargetNode, hw, htab, hrec,
              hh, hvw, hvt, hdt, wvt, alignValOf_removeAlign, recognizedNonLeft_empty,
              brNode, brData, hbw, hbt, hbr, hcs, ih]
          · have hmk : hasAlignMarkList cs = false := by
              simpa [alignMark, hrec] using hm
            have htcs : hasWrapTargetList false cs = false :=
              hasWrapTarget_of_mark cs false hmk
            simp [alignNode, hasWrapTargetList, hasWrapTargetNode, hw, htab, hrec,
              hh, hvw, hvt, wvt, brNode, brData, hbw, hbt, hbr, htcs]
        · have hrecF : recognizedNonLeft (alignValOf d) = false := by simpa using hrec
          simp [alignNode, hasWrapTargetList, hasWrapTargetNode, hw, htab, hrecF,
            hcs, ih]
  · intro it _
    simp [alignList, hasWrapTargetList]
  · intro n l pn ql it h
    simp only [noNestedAlignList, Bool.and_eq_true] at h
    simp [alignList, hasWrapTargetList_append, pn it h.1, ql it h.2]

/-- C6.  Alignment wrapper idempotence: on a document with no nested aligned
blocks (no align-marked element containing another align-marked element in
its subtree), running the alignment stage on its own output changes nothing
and reports no modification, because wrapper tags are skipped and the pass
leaves no remaining wrap targets.  The restriction is necessary: a
non-heading aligned block is replaced by a wrapper holding its content
unprocessed, so an aligned block nested inside it survives the first pass
and is wrapped by the second (see the counterexample). -/
theorem claim_C6_align_idempotent (doc : List Node)
    (h : noNestedAlignList doc = true) :
    alignStageDoc (alignStageDoc doc).1 = ((alignStageDoc doc).1, false) :=
  alignList_id _ false (alignList_no_target doc false h)

/-- Witness: idempotence at a one-block right-aligned document. -/
theorem claim_C6_align_idempotent_witness :
    noNestedAlignList c6wDoc = true ∧
    alignStageDoc (alignStageDoc c6wDoc).1 = ((alignStageDoc c6wDoc).1, false) :=
  ⟨by simp only [c6wDoc, noNestedAlignList, noNestedAlignNode, hasAlignMarkList,
      hasAlignMarkNode]; decide,
   claim_C6_align_idempotent c6wDoc
     (by simp only [c6wDoc, noNestedAlignList, noNestedAlignNode, hasAlignMarkList,
       hasAlignMarkNode]; decide)⟩

/-- Counterexample to unconditional idempotence: for a centered paragraph
nested inside a right-aligned division, the first pass wraps only the outer
division (cloning its content, including the still-aligned paragraph,
unprocessed into the wrapper), and the second pass wraps the paragraph and
reports a further modification. -/
theorem claim_C6_counterexample :
    (alignStageDoc c6CexDoc).1 =
      [.elem ⟨"right", "", [], []⟩
        [.elem ⟨"p", "", [("align", "center")], []⟩ [.text "x"]], brNode] ∧
    (alignStageDoc (alignStageDoc c6CexDoc).1).1 =
      [.elem ⟨"right", "", [], []⟩
        [.elem ⟨"center", "", [], []⟩ [.text "x"], brNode], brNode] ∧
    (alignStageDoc (alignStageDoc c6CexDoc).1).2 = true := by
  have a1 : alignValOf ⟨"div", "", [("align", "right")], []⟩ = "right" := by decide
  have a2 : alignValOf ⟨"p", "", [("align", "center")], []⟩ = "center" := by decide
  have a3 : alignValOf brData = "" := by decide
  refine ⟨?_, ?_, ?_⟩ <;>
    simp +decide only [alignStageDoc, c6CexDoc, alignNode, alignList, a1, a2, a3,
      brNode, brData, wrapperOf, wrapTags, recognizedNonLeft, isHeadingTag,
      if_true, if_false, List.append_nil, List.nil_append, List.cons_append,
      Bool.or_false, Bool.false_or, Bool.or_true, Bool.true_or]

/- ────────────────────  image placeholders (claim C7)  ──────────────────── -/

theorem listContainsSub_append_self (pat post : List Char) :
    listContainsSub pat (pat ++ post) = true := by
  cases pat with
  | nil => cases post <;> simp [listContainsSub]
  | cons c r =>
    simp only [List.cons_append, listContainsSub]
    have h : (c :: r).isPrefixOf (c :: (r ++ post)) = true := by
      rw [List.isPrefixOf_iff_prefix]
      exact ⟨post, by simp⟩
    simp [h]

theorem listContainsSub_middle (pat pre post : List Char) :
    listContainsSub pat (pre ++ (pat ++ post)) = true := by
  induction pre with
  | nil => exact listContainsSub_append_self pat post
  | cons c r ih =>
    simp only [List.cons_append, listContainsSub, List.append_eq, ih, Bool.or_true]

theorem listContainsSub_extend (pat a b : List Char)
    (h : listContainsSub pat a = true) : listContainsSub pat (a ++ b) = true := by
  induction a with
  | nil =>
    simp only [listContainsSub] at h
    have : pat = [] := by simpa using h
    subst this
    cases b <;> simp [listContainsSub]
  | cons c r ih =>
    simp only [listContainsSub, Bool.or_eq_true] at h
    simp only [List.cons_append, listContainsSub, Bool.or_eq_true]
    rcases h with h | h
    · left
      rw [List.isPrefixOf_iff_prefix] at h ⊢
      exact h.trans (List.prefix_append (c :: r) b)
    · right; exact ih h

theorem strContains_extend_right (s t pat : String)
    (h : strContains s pat = true) : strContains (s ++ t) pat = true := by
  show listContainsSub pat.data (s ++ t).data = true
  rw [String.data_append]
  exact listContainsSub_extend _ _ _ h

/-- The `image:` source token occurs in the final placeholder class string,
whatever the optional dimension, ratio and identifier suffixes are. -/
theorem imageToken_contained (e a1 a2 a3 a4 a5 : String) :
    strContains ("inline-image character image-placeholder" ++ " image:" ++ e
      ++ a1 ++ a2 ++ a3 ++ a4 ++ a5) ("image:" ++ e) = true := by
  apply strContains_extend_right
  apply strContains_extend_right
  apply strContains_extend_right
  apply strContains_extend_right
  apply strContains_extend_right
  show listContainsSub _ _ = true
  have hd : ("inline-image character image-placeholder" ++ " image:" ++ e).data
      = "inline-image character image-placeholder ".data
        ++ (("image:" ++ e).data ++ []) := by
    rw [List.append_nil, String.data_append, String.data_append, String.data_append,
      List.append_assoc]
    rw [show (" image:" : String).data = ' ' :: "image:".data from by decide]
    rw [show ("inline-image character image-placeholder " : String).data
        = "inline-image character image-placeholder".data ++ [' '] from by decide]
    simp
  rw [hd]
  exact listContainsSub_middle _ _ _

/-- C7.  Image placeholder guarantee, `customizeDocument` variant: an `<img>`
with a non-empty `src` whose relative resolution fails is still replaced by
exactly the zero-width-space text / placeholder span / zero-width-space text
triple (consuming the two random draws and setting the modified flag), and
the placeholder's class string carries the `image:` token built from the
original, unresolved URL.  (The spec's wording holds for `customizeDocument`;
the `index.js` import variant instead skips such an image — see the
counterexample.) -/
theorem claim_C7_image_triple (env : JsEnv)
    (cssMap : List (String × Option String × Option String)) (k : Nat)
    (d : ElemData) (cs : List Node) (src : String)
    (himg : d.tag = "img") (hsrc : getAttr d "src" = some src) (hne : src ≠ "")
    (hfail : env.resolveImage src = none) :
    imagesNode env cssMap k (.elem d cs) =
      ([.text ZWSPstr, imageSpanOf env cssMap k d src, .text ZWSPstr],
       k + 2, true) ∧
    strContains (imageClassesOf env cssMap k d src).1
      ("image:" ++ encodeURIComponent src) = true := by
  have hres : resolvedSrcOf env src = src := by
    unfold resolvedSrcOf
    split
    · rw [hfail]; rfl
    · rfl
  constructor
  · simp [imagesNode, himg, hsrc, hne, hres]
  · simp only [imageClassesOf]
    exact imageToken_contained _ _ _ _ _ _

/-- Witness: the placeholder triple at `<img src="a.png">` under the failing
resolver. -/
theorem claim_C7_image_triple_witness :
    c7ImgD.tag = "img" ∧
    (imagesNode envTrivial [] 0 (.elem c7ImgD []) =
      ([.text ZWSPstr, imageSpanOf envTrivial [] 0 c7ImgD "a.png", .text ZWSPstr],
       2, true) ∧
     strContains (imageClassesOf envTrivial [] 0 c7ImgD "a.png").1
      ("image:" ++ encodeURIComponent "a.png") = true) :=
  ⟨rfl, claim_C7_image_triple envTrivial [] 0 c7ImgD [] "a.png" rfl (by decide)
    (by decide) rfl⟩

/-- Counterexample for the `index.js` import variant: an `<img>` whose
relative source fails to resolve is left in place — no placeholder triple, no
identifier draw, no modification — contradicting "every image in the input
yields exactly one placeholder triple, even on resolution failure". -/
theorem claim_C7_counterexample :
    indexImagesList (fun _ => none) (fun _ => "id") (fun _ _ => "") 0
      [.elem c7CexImgD []] = ([.elem c7CexImgD []], 0, false) := by
  simp only [indexImagesList]
  rfl

/- ───────────────  structural-impossibility no-ops (claim C8)  ─────────────── -/

theorem flattenTableFull_none (rows : List (List Cell))
    (h : rows = [] ∨ numColsOf rows = 0) : flattenTableFull rows = none := by
  rcases h with h | h
  · subst h; rfl
  · unfold flattenTableFull
    rcases rows with _ | ⟨r, rs⟩
    · rfl
    · simp [h]

theorem processLis_no_li (counter : Int) (depth : Nat) :
    ∀ cs : List Node, (∀ d' cs', Node.elem d' cs' ∈ cs → ¬(d'.tag = "li")) →
      processLis counter cs depth = [] := by
  intro cs
  induction cs with
  | nil => intro _; simp [processLis]
  | cons n rest ih =>
    intro h
    cases n with
    | text s =>
      rw [show processLis counter (.text s :: rest) depth
          = processLis counter rest depth from by simp [processLis]]
      exact ih (fun d' cs' hm => h d' cs' (List.mem_cons_of_mem _ hm))
    | elem d' cs' =>
      have hne : ¬(d'.tag = "li") := h d' cs' (List.mem_cons_self _ _)
      simp only [processLis, if_neg hne]
      exact ih (fun a b hm => h a b (List.mem_cons_of_mem _ hm))

/-- C8.  Structural impossibility, as the code behaves: a `<table>` with no
rows or zero computed logical columns is left in place, contributes no
modification, and the rest of the list is still processed (with the index
advanced past the skipped table); but an `<ol>` with no `<li>` children is
NOT left untouched — its replacement fragment is empty, so the element is
removed, and the ordered-list stage reports a modification regardless
(`processOrderedList` sets `modified = true` unconditionally).  The second
half corrects the claim's "left untouched / not removed" for empty lists. -/
theorem claim_C8_structural_noop (base : String) (idx : Nat) (d : ElemData)
    (cs rest : List Node) (htag : d.tag = "table")
    (hz : rowsOfTable cs = [] ∨ numColsOf (rowsOfTable cs) = 0)
    (od : ElemData) (ocs orest : List Node) (hol : od.tag = "ol")
    (hnoli : ∀ d' cs', Node.elem d' cs' ∈ ocs → ¬(d'.tag = "li")) :
    (tableRewriteList base idx (.elem d cs :: rest) =
      (.elem d cs :: (tableRewriteList base (idx + 1 + countTablesList cs) rest).1,
       (tableRewriteList base (idx + 1 + countTablesList cs) rest).2)) ∧
    (olRewriteList (.elem od ocs :: orest) = olRewriteList orest ∧
     olStageDoc (.elem od ocs :: orest) = (olRewriteList orest, true)) := by
  refine ⟨?_, ?_, ?_⟩
  · have hft : flattenTableFull (rowsOfTable cs) = none := flattenTableFull_none _ hz
    simp only [tableRewriteList, if_pos htag, hft]
    simp only [List.singleton_append, Bool.false_or]
  · simp only [olRewriteList, if_pos hol, processOrderedList]
    rw [processLis_no_li _ _ _ hnoli]
    rfl
  · have h1 : olRewriteList (Node.elem od ocs :: orest) = olRewriteList orest := by
      simp only [olRewriteList, if_pos hol, processOrderedList]
      rw [processLis_no_li _ _ _ hnoli]
      rfl
    simp only [olStageDoc, hasOlList, hasOlNode, hol, h1]
    simp

/-- Witness: the no-op at a rowless table followed by text, and the removal
of an `<ol>` holding only a text node. -/
theorem claim_C8_structural_noop_witness :
    (tableRewriteList "b" 0 [.elem ⟨"table", "", [], []⟩ [], .text "t"] =
      (.elem ⟨"table", "", [], []⟩ [] ::
        (tableRewriteList "b" (0 + 1 + countTablesList []) [.text "t"]).1,
       (tableRewriteList "b" (0 + 1 + countTablesList []) [.text "t"]).2)) ∧
    (olRewriteList [.elem ⟨"ol", "", [], []⟩ [.text "x"]] = olRewriteList [] ∧
     olStageDoc [.elem ⟨"ol", "", [], []⟩ [.text "x"]] = (olRewriteList [], true)) :=
  claim_C8_structural_noop "b" 0 ⟨"table", "", [], []⟩ [] [.text "t"] rfl
    (Or.inl (by simp only [rowsOfTable, collectTrsList]; rfl))
    ⟨"ol", "", [], []⟩ [.text "x"] [] rfl
    (by intro d' cs' hm; simp at hm)

/-- Counterexample to the claim's ordered-list half: the stage on a document
holding one `<ol>` with no `<li>` children removes the element entirely and
reports the document as modified. -/
theorem claim_C8_counterexample :
    olStageDoc [.elem ⟨"ol", "", [], []⟩ [.text "x"]] = ([], true) := by
  simp only [olStageDoc, olRewriteList, processOrderedList, processLis,
    hasOlList, hasOlNode]
  rfl

/- ─────────────────  image identifier length (claim C9)  ───────────────── -/

/-- C9.  Refuted: the freshly minted image identifier is `rand() + rand()`
with `rand() = Math.random().toString(36).slice(2, 8)`, and is NOT always
longer than 10 characters.  When every `Math.random()` draw returns `0.5`
(base-36 rendering `"0.i"`), each `rand()` is the 1-character string `"i"`,
the minted identifier — the one the image stage writes into the placeholder's
`image-id-` class token and `data-image-id` attribute — is `"ii"`, of length
2. -/
theorem claim_C9_image_id_short :
    imagesNode c9Env [] 0 (.elem c9ImgD []) =
      ([.text ZWSPstr, imageSpanOf c9Env [] 0 c9ImgD "x.png", .text ZWSPstr],
       2, true) ∧
    (imageClassesOf c9Env [] 0 c9ImgD "x.png").2 = imageIdAt c9Env 0 ∧
    imageIdAt c9Env 0 = "ii" ∧
    ¬(10 < (imageIdAt c9Env 0).length) := by
  refine ⟨?_, rfl, by decide, by decide⟩
  simp only [imagesNode]
  rfl

/- ─────────────────  table identifier uniqueness (claim C2)  ───────────────── -/

theorem natToDecAux_ne_nil (n : Nat) : natToDecAux (n + 1) n ≠ [] := by
  by_cases h : n < 10
  · simp [natToDecAux, h]
  · simp [natToDecAux, h]

theorem dropPrefixQ_append (pre rest : List Char) :
    dropPrefixQ pre (pre ++ rest) = some rest := by
  unfold dropPrefixQ
  rw [if_pos, List.drop_left]
  rw [List.isPrefixOf_iff_prefix]
  exact List.prefix_append _ _

theorem takeWhile_append_cons (p : Char → Bool) (a : List Char) (c : Char)
    (rest : List Char) (ha : ∀ x ∈ a, p x = true) (hc : p c = false) :
    (a ++ c :: rest).takeWhile p = a := by
  induction a with
  | nil => simp [List.takeWhile_cons, hc]
  | cons x xs ih =>
    have hx : p x = true := ha x (by simp)
    simp [List.takeWhile_cons, hx, ih (fun y hy => ha y (by simp [hy]))]

/-- `JSON.parse` inverts `JSON.stringify` on the tbljson metadata records
(identifiers cannot contain a double quote). -/
theorem parseMeta_stringifyMeta (m : TableMeta) (hq : '"' ∉ m.tblId.data) :
    parseMeta (stringifyMeta m) = some m := by
  obtain ⟨⟨idL⟩, row, cols⟩ := m
  simp only [String.data] at hq
  have hdata : (stringifyMeta ⟨⟨idL⟩, row, cols⟩).data
      = "\x7b\"tblId\":\"".data ++ (idL ++ ("\",\"row\":".data
        ++ ((jsNatToString row).data ++ (",\"cols\":".data
        ++ ((jsNatToString cols).data ++ ['}']))))) := by
    simp only [stringifyMeta, String.data_append, List.append_assoc]
  unfold parseMeta
  rw [hdata, dropPrefixQ_append]
  simp only []
  have hsplit : ("\",\"row\":" : String).data = '"' :: (",\"row\":" : String).data := by
    decide
  have htake : (idL ++ ("\",\"row\":".data
        ++ ((jsNatToString row).data ++ (",\"cols\":".data
        ++ ((jsNatToString cols).data ++ ['}']))))).takeWhile (fun c => c ≠ '"') = idL := by
    rw [hsplit]
    rw [show (idL ++ ('"' :: ",\"row\":".data
        ++ ((jsNatToString row).data ++ (",\"cols\":".data
        ++ ((jsNatToString cols).data ++ ['}']))))) = (idL ++ '"' :: (",\"row\":".data
        ++ ((jsNatToString row).data ++ (",\"cols\":".data
        ++ ((jsNatToString cols).data ++ ['}']))))) from by simp]
    exact takeWhile_append_cons _ _ _ _
      (fun x hx => decide_eq_true (fun hxe => hq (hxe ▸ hx))) (by decide)
  simp only [htake]
  rw [show (idL ++ ("\",\"row\":".data
        ++ ((jsNatToString row).data ++ (",\"cols\":".data
        ++ ((jsNatToString cols).data ++ ['}']))))).drop idL.length
      = "\",\"row\":".data ++ ((jsNatToString row).data ++ (",\"cols\":".data
        ++ ((jsNatToString cols).data ++ ['}']))) from List.drop_left _ _]
  rw [dropPrefixQ_append]
  simp only []
  have hrowtake : ((jsNatToString row).data ++ (",\"cols\":".data
        ++ ((jsNatToString cols).data ++ ['}']))).takeWhile isDecDigit
      = (jsNatToString row).data := by
    rw [show (",\"cols\":" : String).data = ',' :: ("\"cols\":" : String).data from by decide]
    rw [show ((jsNatToString row).data ++ (',' :: "\"cols\":".data
        ++ ((jsNatToString cols).data ++ ['}'])))
      = ((jsNatToString row).data ++ ',' :: ("\"cols\":".data
        ++ ((jsNatToString cols).data ++ ['}']))) from by simp]
    exact takeWhile_append_cons _ _ _ _
      (fun x hx => natToDecAux_digits _ _ x hx) (by decide)
  rw [hrowtake]
  rw [if_neg (by simpa using natToDecAux_ne_nil row)]
  rw [show ((jsNatToString row).data ++ (",\"cols\":".data
        ++ ((jsNatToString cols).data ++ ['}']))).drop (jsNatToString row).data.length
      = ",\"cols\":".data ++ ((jsNatToString cols).data ++ ['}']) from List.drop_left _ _]
  rw [dropPrefixQ_append]
  simp only []
  have hcoltake : ((jsNatToString cols).data ++ ['}']).takeWhile isDecDigit
      = (jsNatToString cols).data := by
    exact takeWhile_append_cons _ _ _ _
      (fun x hx => natToDecAux_digits _ _ x hx) (by decide)
  rw [hcoltake]
  rw [if_neg (by simpa using natToDecAux_ne_nil cols)]
  rw [show ((jsNatToString cols).data ++ ['}']).drop (jsNatToString cols).data.length
      = ['}'] from List.drop_left _ _]
  rw [if_pos rfl]
  simp [decToNat_jsNatToString]

theorem mem_b64Alphabet_restore_clip (c : Char)
    (h : c ∈ '=' :: b64Alphabet) :
    (fun c => if c = '_' then '/' else c)
      ((fun c => if c = '-' then '+' else c)
        ((fun c => if c = '_' then '_' else c)
          ((fun c => if c = '+' then '-' else c) c))) = c := by
  fin_cases h <;> rfl

/-- Round trip of the clipboard decoder against the clipboard's own encoder:
the unsubstituted `/` (the no-op `_`-for-`_` replacement in the hook's `enc`)
is still valid base64, so decoding recovers any latin-1 string exactly. -/
theorem dec_encClip (s : String) (h : ∀ c ∈ s.data, c.toNat < 256) :
    dec (encClip s) = some s := by
  have hbytes : ∀ b ∈ s.data.map Char.toNat, b < 256 := by
    intro b hb
    rcases List.mem_map.mp hb with ⟨c, hc, rfl⟩
    exact h c hc
  have hrestore :
      (mapStr (fun c => if c = '_' then '/' else c)
        (mapStr (fun c => if c = '-' then '+' else c) (encClip s))) = jsBtoa s := by
    show String.mk _ = _
    simp only [encClip, mapStr, jsBtoa, List.map_map]
    congr 1
    refine List.map_congr_left ?_ |>.trans (List.map_id _)
    intro c hc
    exact mem_b64Alphabet_restore_clip c (b64EncodeBytes_mem _ c hc)
  unfold dec
  rw [hrestore]
  unfold jsAtob jsBtoa
  rw [show (String.mk (b64EncodeBytes (s.data.map Char.toNat))).data
        = b64EncodeBytes (s.data.map Char.toNat) from rfl,
    b64DecodeBytes_b64EncodeBytes _ hbytes]
  rcases s with ⟨l⟩
  show some (String.mk ((l.map Char.toNat).map Char.ofNat)) = some (String.mk l)
  rw [List.map_map]
  congr 2
  refine (List.map_congr_left ?_).trans (List.map_id _)
  intro c _
  exact char_ofNat_toNat c

theorem jsStartsWith_append (pre t : String) :
    jsStartsWith (pre ++ t) pre = true := by
  unfold jsStartsWith
  rw [String.data_append, List.isPrefixOf_iff_prefix]
  exact List.prefix_append _ _

theorem token_drop8 (X : String) :
    (("tbljson-" ++ X : String)).data.drop 8 = X.data := by
  rw [String.data_append]
  rw [show (8 : Nat) = ("tbljson-" : String).data.length from by decide]
  exact List.drop_left _ _

/-- `regenerateTableIds` on one freshly pasted token: the metadata is
decoded, its identifier is replaced by the newly minted one, and the mapping
is recorded. -/
theorem regenClass_fresh (mint : Nat → String) (m : TableMeta)
    (hq : '"' ∉ m.tblId.data) (hid : ¬(m.tblId = ""))
    (hlat1 : ∀ c ∈ (stringifyMeta m).data, c.toNat < 256) :
    regenClass mint [] ("tbljson-" ++ encCommon (stringifyMeta m)) =
      ("tbljson-" ++ encClip (stringifyMeta {m with tblId := mint 0}),
       [(m.tblId, mint 0)]) := by
  unfold regenClass
  rw [if_pos (jsStartsWith_append "tbljson-" (encCommon (stringifyMeta m)))]
  rw [token_drop8]
  rw [show (⟨(encCommon (stringifyMeta m)).data⟩ : String)
      = encCommon (stringifyMeta m) from rfl]
  rw [dec_encCommon _ hlat1]
  simp only []
  rw [parseMeta_stringifyMeta m hq]
  simp only []
  rw [if_neg hid]
  simp only [List.lookup_nil, List.length_nil]

/-- C2.  Table identifier uniqueness.  First half: within one run the
assigned identifier `` `${tblIdBase}-${tableIdx}` `` is injective in the
table index, so distinct tables (which always consume distinct indices) get
distinct identifiers.  Second half: the clipboard-paste hook rewrites a
pasted tbljson token (as minted by a previous run, with a non-empty,
quote-free identifier) to carry the freshly minted identifier instead of the
pasted one, recording the old-to-new mapping; and the rewritten token
decodes back to the same metadata with exactly the minted identifier, so a
pasted table shares no identifier with the destination document whenever the
minted value is fresh. -/
theorem claim_C2_table_ids (base : String) (i j : Nat) (mint : Nat → String)
    (m : TableMeta) (hq : '"' ∉ m.tblId.data) (hid : ¬(m.tblId = ""))
    (hq2 : '"' ∉ (mint 0).data)
    (hlat1 : ∀ c ∈ (stringifyMeta m).data, c.toNat < 256)
    (hlat2 : ∀ c ∈ (stringifyMeta {m with tblId := mint 0}).data, c.toNat < 256) :
    (tblIdOf base i = tblIdOf base j → i = j) ∧
    regenClass mint [] ("tbljson-" ++ encCommon (stringifyMeta m)) =
      ("tbljson-" ++ encClip (stringifyMeta {m with tblId := mint 0}),
       [(m.tblId, mint 0)]) ∧
    (dec (encClip (stringifyMeta {m with tblId := mint 0}))).bind parseMeta
      = some {m with tblId := mint 0} := by
  refine ⟨?_, regenClass_fresh mint m hq hid hlat1, ?_⟩
  · intro h
    have hd := congrArg String.data h
    simp only [tblIdOf, String.data_append, List.append_assoc] at hd
    have h2 := List.append_cancel_left hd
    have h3 := List.append_cancel_left h2
    exact jsNatToString_injective (String.ext h3)
  · rw [dec_encClip _ hlat2]
    exact parseMeta_stringifyMeta _ hq2

/-- Witness: identifier uniqueness at a concrete pasted metadata record and
a concrete mint. -/
theorem claim_C2_table_ids_witness :
    (tblIdOf "b7" 0 = tblIdOf "b7" 1 → 0 = 1) ∧
    regenClass (fun _ => "q0q1q2q3q4q5") []
        ("tbljson-" ++ encCommon (stringifyMeta ⟨"ab3x9k-0", 2, 3⟩)) =
      ("tbljson-" ++ encClip
        (stringifyMeta {(⟨"ab3x9k-0", 2, 3⟩ : TableMeta) with
          tblId := (fun _ : Nat => "q0q1q2q3q4q5") 0}),
       [("ab3x9k-0", (fun _ : Nat => "q0q1q2q3q4q5") 0)]) ∧
    (dec (encClip (stringifyMeta {(⟨"ab3x9k-0", 2, 3⟩ : TableMeta) with
        tblId := (fun _ : Nat => "q0q1q2q3q4q5") 0}))).bind parseMeta
      = some {(⟨"ab3x9k-0", 2, 3⟩ : TableMeta) with
          tblId := (fun _ : Nat => "q0q1q2q3q4q5") 0} :=
  claim_C2_table_ids "b7" 0 1 (fun _ => "q0q1q2q3q4q5") ⟨"ab3x9k-0", 2, 3⟩
    (by decide) (by decide) (by decide) (by decide) (by decide)

end DocxCustomizer
